import Mathlib

/-!
DebugView++ : DBWinReader line reassembly

A shallow embedding of `DebugView++Lib/DBWinReader.cpp`.

* `std::string` is a list of characters (`Str`); the payload loop of
  `ProcessLine` walks it one character at a time, as the source does.
* `m_lineBuffers` (a map from process id to pending text) is a function
  `Pid → Option Str`; `find`, `operator[]=` and `erase` are `LineBuffers.find`,
  `LineBuffers.insert` and `LineBuffers.erase`.
* The timer (`m_timer.Get()`, seconds as a `double`) is read from the
  environment: every reading is an explicit input, a rational number.
* Member functions take the reader state `DBWinReader` and return the result
  paired with the state after the call.
* `HandleCache` and `DbWinBuffer` are declared in headers that are not among
  the sources; they are modelled from the specification. The system calls
  `OpenProcess` and `ProcessInfo::GetProcessName` are function arguments.
* The shared channel of `Notify` is explicit state: the mapped record, the
  buffer-ready event and the log of the accesses of the reader in program
  order. The payload of the record is a fixed-size array read as a C string;
  a read that finds no NUL in the array runs past the record and has no
  defined result (`none`). The mutex of `AddLine` and `GetLines` is not
  modelled: calls are taken one after the other.
-/

namespace DebugViewPP

/-- A `std::string`: the sequence of its characters. -/
abbrev Str := List Char

/-- A `DWORD` process id. -/
abbrev Pid := Nat

/-- Seconds, as returned by `m_timer.Get()`. -/
abbrev Time := Rat

/-- A `FILETIME` wall-clock stamp. -/
abbrev FileTime := Nat

/-- An open process `HANDLE` (never null; a null handle is `none`). -/
abbrev Handle := Nat

/-- `HandleCacheTimeout = 15.0` seconds. -/
def HandleCacheTimeout : Time := 15

/-- A finished or raw line: `Line(time, systemTime, pid, processName, message)`. -/
structure Line where
  time : Time
  systemTime : FileTime
  pid : Pid
  processName : Str
  message : Str
  deriving DecidableEq, Repr

/-- `Lines` is a vector of `Line`. -/
abbrev Lines := List Line

/-- A raw fragment as queued by `Add`: `DBWinMessage`. -/
structure DBWinMessage where
  time : Time
  systemTime : FileTime
  pid : Pid
  handle : Option Handle
  message : Str
  deriving DecidableEq, Repr

/-- `DBWinMessages` is a vector of `DBWinMessage`. -/
abbrev DBWinMessages := List DBWinMessage

/-- The reassembly map `m_lineBuffers`: process id to pending text. -/
abbrev LineBuffers := Pid → Option Str

namespace LineBuffers

/-- The map of a freshly constructed reader: no entry. -/
def empty : LineBuffers := fun _ => none

/-- `m.find(pid)`: the entry of `pid`, `none` for `m.end()`. -/
def find (m : LineBuffers) (pid : Pid) : Option Str := m pid

/-- `m[pid] = text`: create or overwrite the entry of `pid`. -/
def insert (m : LineBuffers) (pid : Pid) (text : Str) : LineBuffers :=
  fun k => if k = pid then some text else m k

/-- `m.erase(pid)`: remove the entry of `pid`. -/
def erase (m : LineBuffers) (pid : Pid) : LineBuffers :=
  fun k => if k = pid then none else m k

end LineBuffers

/-- Modelled from the spec: one entry of the handle cache (the class
`HandleCache` is declared in `ProcessInfo.h`, which is not among the sources):
`CacheEntry { sourceId, originHandle, lastSeen }`. -/
structure CacheEntry where
  sourceId : Pid
  originHandle : Handle
  lastSeen : Time
  deriving DecidableEq, Repr

/-- Modelled from the spec: the handle cache, missing from the sources, is the
collection of its entries. -/
abbrev HandleCache := List CacheEntry

namespace HandleCache

/-- Modelled from the spec: `Add(sourceId, originHandle)` is missing from the
sources; it records or refreshes the last-seen time of `sourceId` and takes
the handle, dropping a handle cached before for the same id. -/
def Add (c : HandleCache) (now : Time) (pid : Pid) (h : Handle) : HandleCache :=
  ⟨pid, h, now⟩ :: c.filter (fun e => e.sourceId ≠ pid)

/-- Modelled from the spec: `Cleanup(now)` is missing from the sources; it
evicts every entry whose `now - lastSeen` exceeds the timeout of 15 seconds and
returns the evicted ids, paired here with the cache that remains. -/
def Cleanup (c : HandleCache) (now : Time) : List Pid × HandleCache :=
  ((c.filter (fun e => decide (now - e.lastSeen > HandleCacheTimeout))).map (fun e => e.sourceId),
   c.filter (fun e => !decide (now - e.lastSeen > HandleCacheTimeout)))

end HandleCache

/-- The members of `DBWinReader` that the line pipeline reads and writes,
with the `GetAutoNewLine()` option of its base class `LogSource`. -/
structure DBWinReader where
  autoNewLine : Bool
  m_lines : DBWinMessages
  m_backBuffer : DBWinMessages
  m_lineBuffers : LineBuffers
  m_handleCache : HandleCache
  m_handleCacheTime : Time

/-- The reader after construction: nothing queued, no pending text, an empty
handle cache and `m_handleCacheTime(0.0)`. -/
def DBWinReader.new (autoNewLine : Bool) : DBWinReader :=
  { autoNewLine := autoNewLine, m_lines := [], m_backBuffer := [],
    m_lineBuffers := LineBuffers.empty, m_handleCache := [], m_handleCacheTime := 0 }

/-- The payload loop of `ProcessLine` (source lines 152-167). `message` is the
pending buffer of the source, `lines` the lines emitted so far: a carriage
return is skipped, a line feed emits `outputLine` with the buffer as its text
and clears the buffer, any other character is pushed onto the buffer. -/
def consume (outputLine : Line) : Str → Str → Lines → Lines × Str
  | [], message, lines => (lines, message)
  | c :: rest, message, lines =>
    if c = '\r' then consume outputLine rest message lines
    else if c = '\n' then
      consume outputLine rest [] (lines ++ [{ outputLine with message := message }])
    else consume outputLine rest (message ++ [c]) lines

/-- `DBWinReader::ProcessLine` (source lines 140-180). -/
def ProcessLine (line : Line) (self : DBWinReader) : Lines × DBWinReader :=
  -- lines 143-149: create the entry when it is missing, then take a reference
  let buffers :=
    if self.m_lineBuffers.find line.pid = none then self.m_lineBuffers.insert line.pid []
    else self.m_lineBuffers
  let message := (buffers.find line.pid).getD []
  -- lines 151-167
  let r := consume line line.message message []
  -- lines 169-178
  if r.2.isEmpty then
    (r.1, { self with m_lineBuffers := buffers.erase line.pid })
  else if self.autoNewLine || decide (r.2.length > 8192) then
    (r.1 ++ [{ line with message := r.2 }],
     { self with m_lineBuffers := buffers.insert line.pid [] })
  else
    (r.1, { self with m_lineBuffers := buffers.insert line.pid r.2 })

/-- The environment readings of one `CheckHandleCache` call. -/
structure CheckReads where
  /-- The reading `m_timer.Get()` of the gate, source line 184. -/
  gate : Time
  /-- The clock that `Cleanup` evicts by. -/
  cleanup : Time
  /-- The reading `m_timer.Get()` for the forced-flush line of a process id, line 195. -/
  flushTime : Pid → Time
  /-- The reading `GetSystemTimeAsFileTime()` for the forced-flush line of a process id. -/
  flushSystemTime : Pid → FileTime
  /-- The reading `m_timer.Get()` stored as the time of the check, line 199. -/
  stamp : Time

/-- The origin name of a forced-flush line. -/
def flushName : Str := "<flush>".toList

/-- The loop of `CheckHandleCache` over the evicted ids (source lines 189-198):
an id that has an entry is erased, after a line with its pending text has been
emitted when the text is not empty. -/
def flushRemoved (reads : CheckReads) : List Pid → LineBuffers → Lines → Lines × LineBuffers
  | [], buffers, lines => (lines, buffers)
  | pid :: rest, buffers, lines =>
    match buffers.find pid with
    | none => flushRemoved reads rest buffers lines
    | some text =>
      if !text.isEmpty then
        flushRemoved reads rest (buffers.erase pid)
          (lines ++ [⟨reads.flushTime pid, reads.flushSystemTime pid, pid, flushName, text⟩])
      else
        flushRemoved reads rest (buffers.erase pid) lines

/-- `DBWinReader::CheckHandleCache` (source lines 182-201). -/
def CheckHandleCache (reads : CheckReads) (self : DBWinReader) : Lines × DBWinReader :=
  if reads.gate - self.m_handleCacheTime < HandleCacheTimeout then
    ([], self)
  else
    let removed := self.m_handleCache.Cleanup reads.cleanup
    let r := flushRemoved reads removed.1 self.m_lineBuffers []
    (r.1, { self with m_lineBuffers := r.2, m_handleCache := removed.2,
                      m_handleCacheTime := reads.stamp })

/-- The pending text of a source: the buffer of its entry, empty when the
source has no entry. -/
def pendingOf (self : DBWinReader) (pid : Pid) : Str :=
  (self.m_lineBuffers.find pid).getD []

/-- A payload with its carriage returns removed. -/
def stripCR (p : Str) : Str := p.filter (fun c => c ≠ '\r')

/-- A raw line of source `pid` carrying `payload`. -/
def rawLine (pid : Pid) (payload : Str) : Line :=
  { time := 0, systemTime := 0, pid := pid, processName := [], message := payload }

/-- The text made of the line-feed-terminated segments `texts`, in order,
followed by the unterminated text `rest`. -/
def terminated : List Str → Str → Str
  | [], rest => rest
  | t :: ts, rest => t ++ '\n' :: terminated ts rest

/-- A text without carriage return and without line feed. -/
def Clean (t : Str) : Prop := '\r' ∉ t ∧ '\n' ∉ t

/-- Every pending buffer of the map is free of carriage returns and line feeds. -/
def BuffersClean (m : LineBuffers) : Prop := ∀ pid b, m pid = some b → Clean b

/-- Successive `ProcessLine` calls, one per raw line, the emitted lines
appended in call order (the loop of `ProcessLines`, source lines 132-134). -/
def processAll : List Line → DBWinReader → Lines × DBWinReader
  | [], self => ([], self)
  | line :: rest, self =>
    let r := ProcessLine line self
    let q := processAll rest r.2
    (r.1 ++ q.1, q.2)

/-- The reader states of a run: a constructed reader, then any sequence of
`ProcessLine` and `CheckHandleCache` calls, and of steps that leave the
reassembly map alone (queueing a fragment, adding to the handle cache,
switching the auto-newline option). -/
inductive Reachable : DBWinReader → Prop
  | init (autoNewLine : Bool) : Reachable (DBWinReader.new autoNewLine)
  | processLine (line : Line) {s : DBWinReader} :
      Reachable s → Reachable (ProcessLine line s).2
  | checkHandleCache (reads : CheckReads) {s : DBWinReader} :
      Reachable s → Reachable (CheckHandleCache reads s).2
  | other {s : DBWinReader} (t : DBWinReader) :
      Reachable s → t.m_lineBuffers = s.m_lineBuffers → Reachable t

/-- The environment readings of one `ProcessLines` batch: those of its
`CheckHandleCache` call, and the clock of the handle cache when the fragment at
a given position of the batch is added to it. -/
structure BatchReads where
  /-- The readings of the `CheckHandleCache` call, source line 121. -/
  check : CheckReads
  /-- The clock of `m_handleCache.Add` for the fragment at a position, line 129. -/
  addTime : Nat → Time

/-- The raw line that `ProcessLines` builds from a fragment (source lines
124-132): the resolver names the origin when the handle is not null, the origin
name is empty otherwise. -/
def toLine (GetProcessName : Handle → Str) (m : DBWinMessage) : Line :=
  { time := m.time, systemTime := m.systemTime, pid := m.pid,
    processName := (match m.handle with
      | some h => GetProcessName h
      | none => []),
    message := m.message }

/-- The loop of `ProcessLines` (source lines 122-135), `i` the position of the
next fragment: a fragment with a handle is named by the resolver and its handle
goes into the handle cache; every fragment is passed to `ProcessLine` and the
lines it emits are pushed onto `resolvedLines`. -/
def processLoop (GetProcessName : Handle → Str) (addTime : Nat → Time) :
    Nat → DBWinMessages → DBWinReader → Lines → Lines × DBWinReader
  | _, [], self, resolvedLines => (resolvedLines, self)
  | i, m :: rest, self, resolvedLines =>
    let self1 : DBWinReader :=
      match m.handle with
      | some h => { self with m_handleCache := self.m_handleCache.Add (addTime i) m.pid h }
      | none => self
    let r := ProcessLine (toLine GetProcessName m) self1
    processLoop GetProcessName addTime (i + 1) rest r.2 (resolvedLines ++ r.1)

/-- `DBWinReader::ProcessLines` (source lines 119-138). -/
def ProcessLines (GetProcessName : Handle → Str) (reads : BatchReads)
    (messages : DBWinMessages) (self : DBWinReader) : Lines × DBWinReader :=
  let c := CheckHandleCache reads.check self
  processLoop GetProcessName reads.addTime 0 messages c.2 c.1

/-- `DBWinReader::AddLine` (source lines 103-107): push the fragment onto
`m_lines`. -/
def AddLine (message : DBWinMessage) (self : DBWinReader) : DBWinReader :=
  { self with m_lines := self.m_lines ++ [message] }

/-- `DBWinReader::GetLines` (source lines 109-117): clear the back buffer, swap
it with `m_lines`, process the back buffer. -/
def GetLines (GetProcessName : Handle → Str) (reads : BatchReads) (self : DBWinReader) :
    Lines × DBWinReader :=
  let cleared : DBWinReader := { self with m_backBuffer := [] }
  let swapped : DBWinReader :=
    { cleared with m_lines := cleared.m_backBuffer, m_backBuffer := cleared.m_lines }
  ProcessLines GetProcessName reads swapped.m_backBuffer swapped

/-- The fragments of `messages` queued by successive `AddLine` calls. -/
def addLines (messages : DBWinMessages) (self : DBWinReader) : DBWinReader :=
  messages.foldl (fun st m => AddLine m st) self

/-- A line without its origin name: time, system time, source id and text. -/
def Line.core (l : Line) : Time × FileTime × Pid × Str :=
  (l.time, l.systemTime, l.pid, l.message)

/-- A fragment without its handle: time, system time, source id and payload. -/
def DBWinMessage.core (m : DBWinMessage) : Time × FileTime × Pid × Str :=
  (m.time, m.systemTime, m.pid, m.message)

/-- Every pending buffer of the map holds at most 8192 bytes. -/
def BuffersBounded (m : LineBuffers) : Prop := ∀ pid b, m pid = some b → b.length ≤ 8192

/-- A text with its carriage returns and line feeds removed. -/
def stripCRLF (p : Str) : Str := p.filter (fun c => c ≠ '\r' && c ≠ '\n')

/-- The texts of `lines` one after the other. -/
def concatTexts (lines : Lines) : Str := (lines.map Line.message).foldr (· ++ ·) []

/-- Modelled from the spec: the record of the shared region, whose type
`DbWinBuffer` is declared in `DBWinBuffer.h`, not among the sources: a process
identifier and a fixed-size array of payload bytes (4096 bytes less the
identifier); `data` is the content of that whole array. -/
structure DbWinBuffer where
  processId : Pid
  data : Str

/-- The `std::string` built from a `const char*` that points at the start of an
array whose content is `text`: the bytes before the first NUL of the array.
When the array holds no NUL the read runs past its end, which is undefined
behaviour: the result is `none`. -/
def cString (text : Str) : Option Str :=
  if Char.ofNat 0 ∈ text then some (text.takeWhile (fun c => c ≠ Char.ofNat 0)) else none

/-- `DBWinReader::Add` (source lines 91-100): stamp the fragment with the timer
and the system time read from the environment, copy the text that the pointer
denotes (line 98) and queue the fragment with `AddLine`. `text` is the content
of the array that the pointer points into; the result is `none` when the copy
runs past that array. -/
def Add (now : Time) (systemTime : FileTime) (pid : Pid) (text : Str)
    (handle : Option Handle) (self : DBWinReader) : Option DBWinReader :=
  match cString text with
  | some message =>
    some (AddLine { time := now, systemTime := systemTime, pid := pid, handle := handle,
                    message := message } self)
  | none => none

/-- What the reader does to the shared channel, in program order. -/
inductive ChannelAccess where
  | readRecord
  | setBufferReady
  deriving DecidableEq, Repr

/-- The shared channel as `Notify` sees it: the mapped record, whether the
event `m_dbWinBufferReady` is signalled, and the log of the accesses of the
reader. -/
structure Channel where
  m_dbWinBuffer : DbWinBuffer
  bufferReady : Bool
  accesses : List ChannelAccess

/-- `DBWinReader::Notify` (source lines 62-77, `OPENPROCESS_DEBUG` undefined):
open the process of the record (line 64), queue the record with `Add` (line 75),
then signal `m_dbWinBufferReady` (line 76). `OpenProcess` is the system call, a
null handle being `none`. The result is `none` when the copy of the payload
runs past the record (no NUL in its array). -/
def Notify (OpenProcess : Pid → Option Handle) (now : Time) (systemTime : FileTime)
    (ch : Channel) (self : DBWinReader) : Option (Channel × DBWinReader) :=
  let handle := OpenProcess ch.m_dbWinBuffer.processId
  let ch1 : Channel := { ch with accesses := ch.accesses ++ [ChannelAccess.readRecord] }
  match Add now systemTime ch1.m_dbWinBuffer.processId ch1.m_dbWinBuffer.data handle self with
  | none => none
  | some self1 =>
    let ch2 : Channel := { ch1 with accesses := ch1.accesses ++ [ChannelAccess.readRecord] }
    let ch3 : Channel :=
      { ch2 with bufferReady := true,
                 accesses := ch2.accesses ++ [ChannelAccess.setBufferReady] }
    some (ch3, self1)

/-- Every source that has an entry in the reassembly map and is not in `N` has
an entry in the handle cache. -/
def CachedOutside (N : Pid → Prop) (s : DBWinReader) : Prop :=
  ∀ pid b, s.m_lineBuffers pid = some b → ¬ N pid → ∃ e ∈ s.m_handleCache, e.sourceId = pid

/-! ## The payload loop -/

theorem LF_ne_CR : ('\n' = '\r') = False := by decide

theorem consume_acc (o : Line) (p : Str) : ∀ (m : Str) (ls : Lines),
    consume o p m ls = (ls ++ (consume o p m []).1, (consume o p m []).2) := by
  induction p with
  | nil => intro m ls; simp [consume]
  | cons c p ih =>
    intro m ls
    by_cases h1 : c = '\r'
    · simp only [consume, h1, if_true]; exact ih m ls
    · by_cases h2 : c = '\n'
      · subst h2
        simp only [consume, LF_ne_CR, if_true, if_false]
        rw [ih [] (ls ++ _), ih [] ([] ++ _)]
        simp
      · simp only [consume, h1, h2, if_false]; exact ih _ ls

theorem consume_append (o : Line) (p q : Str) : ∀ (m : Str) (ls : Lines),
    consume o (p ++ q) m ls = consume o q (consume o p m ls).2 (consume o p m ls).1 := by
  induction p with
  | nil => intro m ls; simp [consume]
  | cons c p ih =>
    intro m ls
    by_cases h1 : c = '\r'
    · simp only [List.cons_append, consume, h1, if_true]; exact ih m ls
    · by_cases h2 : c = '\n'
      · subst h2
        simp only [List.cons_append, consume, LF_ne_CR, if_true, if_false]; exact ih _ _
      · simp only [List.cons_append, consume, h1, h2, if_false]; exact ih _ _

theorem consume_noLF (o : Line) (p : Str) : ∀ (m : Str) (ls : Lines),
    '\n' ∉ p → consume o p m ls = (ls, m ++ stripCR p) := by
  induction p with
  | nil => intro m ls _; simp [consume, stripCR]
  | cons c p ih =>
    intro m ls h
    have hc : c ≠ '\n' := fun e => h (by simp [e])
    have hp : '\n' ∉ p := fun e => h (by simp [e])
    by_cases h1 : c = '\r'
    · simp only [consume, h1, if_true]
      rw [ih m ls hp]; simp [stripCR]
    · simp only [consume, h1, hc, if_false]
      rw [ih _ ls hp]; simp [stripCR, h1]

theorem append_LF_inj : ∀ (a b x y : Str), '\n' ∉ a → '\n' ∉ b →
    a ++ '\n' :: x = b ++ '\n' :: y → a = b ∧ x = y := by
  intro a
  induction a with
  | nil =>
    intro b x y _ hb h
    cases b with
    | nil => simpa using h
    | cons c b =>
      simp only [List.nil_append, List.cons_append, List.cons.injEq] at h
      exact absurd (List.mem_cons.mpr (Or.inl h.1)) hb
  | cons c a ih =>
    intro b x y ha hb h
    cases b with
    | nil =>
      simp only [List.nil_append, List.cons_append, List.cons.injEq] at h
      exact absurd (List.mem_cons.mpr (Or.inl h.1.symm)) ha
    | cons d b =>
      simp only [List.cons_append, List.cons.injEq] at h
      have ha2 : '\n' ∉ a := fun e => ha (by simp [e])
      have hb2 : '\n' ∉ b := fun e => hb (by simp [e])
      obtain ⟨e1, e2⟩ := ih b x y ha2 hb2 h.2
      exact ⟨by rw [h.1, e1], e2⟩

theorem mem_terminated_cons (t : Str) (ts : List Str) (rest : Str) :
    '\n' ∈ terminated (t :: ts) rest := by
  simp [terminated]

/-- The payload loop computes the decomposition into terminated segments. -/
theorem consume_terminated (o : Line) (p : Str) : ∀ (b : Str) (texts : List Str) (rest : Str),
    '\n' ∉ b → (∀ t ∈ texts, '\n' ∉ t) → '\n' ∉ rest →
    b ++ stripCR p = terminated texts rest →
    consume o p b [] = (texts.map (fun t => { o with message := t }), rest) := by
  induction p with
  | nil =>
    intro b texts rest hb _ _ h
    simp only [stripCR, List.filter_nil, List.append_nil] at h
    cases texts with
    | nil => simp [consume, terminated] at h ⊢; exact h
    | cons t ts => exact absurd (h ▸ mem_terminated_cons t ts rest) hb
  | cons c p ih =>
    intro b texts rest hb ht hr h
    by_cases h1 : c = '\r'
    · simp only [consume, h1, if_true]
      apply ih b texts rest hb ht hr
      simpa [stripCR, h1] using h
    · by_cases h2 : c = '\n'
      · subst h2
        simp only [consume, LF_ne_CR, if_true, if_false]
        have h3 : b ++ '\n' :: stripCR p = terminated texts rest := by
          simpa [stripCR] using h
        cases texts with
        | nil =>
          simp only [terminated] at h3
          exact absurd (by rw [← h3]; simp) hr
        | cons t ts =>
          simp only [terminated] at h3
          obtain ⟨e1, e2⟩ := append_LF_inj b t _ _ hb (ht t (by simp)) h3
          rw [consume_acc]
          rw [ih [] ts rest (by simp) (fun u hu => ht u (by simp [hu])) hr (by simpa using e2)]
          simp [e1]
      · simp only [consume, h1, h2, if_false]
        apply ih (b ++ [c]) texts rest _ ht hr
        · simpa [stripCR, h1] using h
        · simp only [List.mem_append, List.mem_singleton, not_or]
          exact ⟨hb, fun e => h2 e.symm⟩

/-! ## The reassembly map -/

theorem erase_insert (m : LineBuffers) (pid : Pid) (t : Str) :
    (m.insert pid t).erase pid = m.erase pid := by
  funext k; simp only [LineBuffers.erase, LineBuffers.insert]; split <;> rfl

theorem insert_insert (m : LineBuffers) (pid : Pid) (t u : Str) :
    (m.insert pid t).insert pid u = m.insert pid u := by
  funext k; simp only [LineBuffers.insert]; split <;> rfl

theorem insert_self (m : LineBuffers) (pid : Pid) : m.insert pid [] pid = some [] := by
  simp [LineBuffers.insert]

/-- The outcome of `ProcessLine`, written over the pending text of the source
and the reassembly map before the call. -/
theorem ProcessLine_eq (line : Line) (s : DBWinReader) :
    ProcessLine line s =
      if (consume line line.message (pendingOf s line.pid) []).2 = [] then
        ((consume line line.message (pendingOf s line.pid) []).1,
         { s with m_lineBuffers := s.m_lineBuffers.erase line.pid })
      else if s.autoNewLine = true ∨
          8192 < (consume line line.message (pendingOf s line.pid) []).2.length then
        ((consume line line.message (pendingOf s line.pid) []).1 ++
           [{ line with message := (consume line line.message (pendingOf s line.pid) []).2 }],
         { s with m_lineBuffers := s.m_lineBuffers.insert line.pid [] })
      else
        ((consume line line.message (pendingOf s line.pid) []).1,
         { s with m_lineBuffers := (s.m_lineBuffers.insert line.pid
             (consume line line.message (pendingOf s line.pid) []).2) }) := by
  unfold ProcessLine pendingOf
  cases h : s.m_lineBuffers line.pid with
  | none =>
    simp only [LineBuffers.find, h, if_true, insert_self, Option.getD_some, Option.getD_none,
      erase_insert, insert_insert, List.isEmpty_iff, Bool.or_eq_true, decide_eq_true_eq, gt_iff_lt]
  | some b =>
    simp only [LineBuffers.find, h, if_false, Option.getD_some, reduceCtorEq,
      List.isEmpty_iff, Bool.or_eq_true, decide_eq_true_eq, gt_iff_lt]

theorem pendingOf_erase (s : DBWinReader) (pid : Pid) :
    pendingOf { s with m_lineBuffers := s.m_lineBuffers.erase pid } pid = [] := by
  simp [pendingOf, LineBuffers.find, LineBuffers.erase]

theorem pendingOf_insert (s : DBWinReader) (pid : Pid) (t : Str) :
    pendingOf { s with m_lineBuffers := s.m_lineBuffers.insert pid t } pid = t := by
  simp [pendingOf, LineBuffers.find, LineBuffers.insert]

theorem erase_erase (m : LineBuffers) (pid : Pid) :
    (m.erase pid).erase pid = m.erase pid := by
  funext k; simp only [LineBuffers.erase]; split <;> rfl

theorem insert_erase (m : LineBuffers) (pid : Pid) (u : Str) :
    (m.erase pid).insert pid u = m.insert pid u := by
  funext k; simp only [LineBuffers.insert, LineBuffers.erase]; split <;> rfl

theorem ProcessLine_autoNewLine (line : Line) (s : DBWinReader) :
    (ProcessLine line s).2.autoNewLine = s.autoNewLine := by
  rw [ProcessLine_eq]; split
  · rfl
  · split <;> rfl

/-- The pending text after the loop does not depend on the line record. -/
theorem consume_snd_indep (o q : Line) (p : Str) : ∀ (m : Str) (ls ks : Lines),
    (consume o p m ls).2 = (consume q p m ks).2 := by
  induction p with
  | nil => intro m ls ks; simp [consume]
  | cons c p ih =>
    intro m ls ks
    by_cases h1 : c = '\r'
    · simp only [consume, h1, if_true]; exact ih m ls ks
    · by_cases h2 : c = '\n'
      · subst h2
        simp only [consume, LF_ne_CR, if_true, if_false]; exact ih _ _ _
      · simp only [consume, h1, h2, if_false]; exact ih _ _ _

/-- The texts of the emitted lines do not depend on the line record. -/
theorem consume_texts_indep (o q : Line) (p : Str) : ∀ (m : Str) (ls ks : Lines),
    ls.map Line.message = ks.map Line.message →
    (consume o p m ls).1.map Line.message = (consume q p m ks).1.map Line.message := by
  induction p with
  | nil => intro m ls ks h; simpa [consume] using h
  | cons c p ih =>
    intro m ls ks h
    by_cases h1 : c = '\r'
    · simp only [consume, h1, if_true]; exact ih m ls ks h
    · by_cases h2 : c = '\n'
      · subst h2
        simp only [consume, LF_ne_CR, if_true, if_false]
        apply ih; simp [h]
      · simp only [consume, h1, h2, if_false]; exact ih _ _ _ h

/-- Without auto-newline and with at most 8192 bytes left pending, `ProcessLine`
emits the lines of the loop and stores what the loop left pending. -/
theorem ProcessLine_noflush (line : Line) (s : DBWinReader) (hauto : s.autoNewLine = false)
    (hb : (consume line line.message (pendingOf s line.pid) []).2.length ≤ 8192) :
    (ProcessLine line s).1 = (consume line line.message (pendingOf s line.pid) []).1 ∧
    pendingOf (ProcessLine line s).2 line.pid
      = (consume line line.message (pendingOf s line.pid) []).2 ∧
    ((ProcessLine line s).2.m_lineBuffers = s.m_lineBuffers.erase line.pid ∨
     ∃ t, (ProcessLine line s).2.m_lineBuffers = s.m_lineBuffers.insert line.pid t) := by
  rw [ProcessLine_eq]
  split
  · next h => exact ⟨rfl, by rw [pendingOf_erase, h], Or.inl rfl⟩
  · rw [if_neg (by simp only [hauto, Bool.false_eq_true, false_or]; omega)]
    exact ⟨rfl, by rw [pendingOf_insert], Or.inr ⟨_, rfl⟩⟩

/-! ## Carriage returns and line feeds never reach a buffer -/

theorem clean_nil : Clean [] := by simp [Clean]

theorem clean_snoc {m : Str} {c : Char} (hm : Clean m) (h1 : c ≠ '\r') (h2 : c ≠ '\n') :
    Clean (m ++ [c]) := by
  simp only [Clean, List.mem_append, List.mem_singleton, not_or] at *
  exact ⟨⟨hm.1, fun e => h1 e.symm⟩, ⟨hm.2, fun e => h2 e.symm⟩⟩

theorem clean_replicate (n : Nat) (c : Char) (h1 : c ≠ '\r') (h2 : c ≠ '\n') :
    Clean (List.replicate n c) := by
  constructor
  · intro h; exact h1 (List.eq_of_mem_replicate h).symm
  · intro h; exact h2 (List.eq_of_mem_replicate h).symm

theorem stripCR_clean {p : Str} (h : Clean p) : stripCR p = p := by
  simp only [stripCR, List.filter_eq_self]
  intro c hc
  simp only [ne_eq, decide_not, Bool.not_eq_eq_eq_not, Bool.not_true, decide_eq_false_iff_not]
  exact fun e => h.1 (e ▸ hc)

theorem consume_plain (o : Line) (p : Str) (m : Str) (ls : Lines) (h : Clean p) :
    consume o p m ls = (ls, m ++ p) := by
  rw [consume_noLF o p m ls h.2, stripCR_clean h]

theorem consume_clean (o : Line) (p : Str) : ∀ (m : Str) (ls : Lines),
    Clean m → (∀ l ∈ ls, Clean l.message) →
    (∀ l ∈ (consume o p m ls).1, Clean l.message) ∧ Clean (consume o p m ls).2 := by
  induction p with
  | nil => intro m ls hm hls; exact ⟨hls, hm⟩
  | cons c p ih =>
    intro m ls hm hls
    by_cases h1 : c = '\r'
    · simp only [consume, h1, if_true]; exact ih m ls hm hls
    · by_cases h2 : c = '\n'
      · subst h2
        simp only [consume, LF_ne_CR, if_true, if_false]
        apply ih [] _ clean_nil
        intro l hl
        rcases List.mem_append.mp hl with h | h
        · exact hls l h
        · rw [List.mem_singleton.mp h]; exact hm
      · simp only [consume, h1, h2, if_false]
        exact ih _ ls (clean_snoc hm h1 h2) hls

theorem buffersClean_erase {m : LineBuffers} (h : BuffersClean m) (pid : Pid) :
    BuffersClean (m.erase pid) := by
  intro k b hk
  simp only [LineBuffers.erase] at hk
  split at hk
  · cases hk
  · exact h k b hk

theorem buffersClean_insert {m : LineBuffers} (h : BuffersClean m) (pid : Pid) {t : Str}
    (ht : Clean t) : BuffersClean (m.insert pid t) := by
  intro k b hk
  simp only [LineBuffers.insert] at hk
  split at hk
  · cases hk; exact ht
  · exact h k b hk

theorem pendingOf_clean {s : DBWinReader} (h : BuffersClean s.m_lineBuffers) (pid : Pid) :
    Clean (pendingOf s pid) := by
  unfold pendingOf LineBuffers.find
  cases e : s.m_lineBuffers pid with
  | none => exact clean_nil
  | some b => exact h pid b e

theorem ProcessLine_clean (line : Line) (s : DBWinReader) (h : BuffersClean s.m_lineBuffers) :
    (∀ l ∈ (ProcessLine line s).1, Clean l.message) ∧
    BuffersClean (ProcessLine line s).2.m_lineBuffers := by
  obtain ⟨c1, c2⟩ := consume_clean line line.message (pendingOf s line.pid) []
    (pendingOf_clean h line.pid) (by simp)
  rw [ProcessLine_eq]
  split
  · exact ⟨c1, buffersClean_erase h _⟩
  · split
    · refine ⟨?_, buffersClean_insert h _ clean_nil⟩
      intro l hl
      rcases List.mem_append.mp hl with hl | hl
      · exact c1 l hl
      · rw [List.mem_singleton.mp hl]; exact c2
    · exact ⟨c1, buffersClean_insert h _ c2⟩

theorem flushRemoved_clean (reads : CheckReads) (removed : List Pid) :
    ∀ (m : LineBuffers) (ls : Lines), BuffersClean m → (∀ l ∈ ls, Clean l.message) →
    (∀ l ∈ (flushRemoved reads removed m ls).1, Clean l.message) ∧
    BuffersClean (flushRemoved reads removed m ls).2 := by
  induction removed with
  | nil => intro m ls hm hls; exact ⟨hls, hm⟩
  | cons pid rest ih =>
    intro m ls hm hls
    unfold flushRemoved
    cases e : m.find pid with
    | none => exact ih m ls hm hls
    | some text =>
      simp only
      split
      · apply ih _ _ (buffersClean_erase hm pid)
        intro l hl
        rcases List.mem_append.mp hl with hl | hl
        · exact hls l hl
        · rw [List.mem_singleton.mp hl]; exact hm pid text e
      · exact ih _ _ (buffersClean_erase hm pid) hls

theorem CheckHandleCache_clean (reads : CheckReads) (s : DBWinReader)
    (h : BuffersClean s.m_lineBuffers) :
    (∀ l ∈ (CheckHandleCache reads s).1, Clean l.message) ∧
    BuffersClean (CheckHandleCache reads s).2.m_lineBuffers := by
  unfold CheckHandleCache
  split
  · exact ⟨by simp, h⟩
  · exact flushRemoved_clean reads _ _ _ h (by simp)

theorem reachable_clean {s : DBWinReader} (h : Reachable s) : BuffersClean s.m_lineBuffers := by
  induction h with
  | init a => intro pid b hb; simp [DBWinReader.new, LineBuffers.empty] at hb
  | processLine line _ ih => exact (ProcessLine_clean line _ ih).2
  | checkHandleCache reads _ ih => exact (CheckHandleCache_clean reads _ ih).2
  | other t _ e ih => rw [e]; exact ih

/-! ## Payloads without a line feed -/

/-- A payload without line feed whose text, carriage returns removed, is longer
than 8192 bytes, arriving at a source with nothing pending: one line with that
text, nothing left pending. -/
theorem ProcessLine_overlong (line : Line) (s : DBWinReader)
    (h0 : pendingOf s line.pid = []) (hLF : '\n' ∉ line.message)
    (hlen : 8192 < (stripCR line.message).length) :
    (ProcessLine line s).1 = [{ line with message := stripCR line.message }] ∧
    pendingOf (ProcessLine line s).2 line.pid = [] := by
  have hne : stripCR line.message ≠ [] := by intro e; simp [e] at hlen
  rw [ProcessLine_eq]
  simp only [h0, consume_noLF line line.message [] [] hLF, List.nil_append, hne, if_false,
    hlen, or_true, if_true, pendingOf_insert, and_self]

/-- A payload of carriage returns after plain text is the plain text. -/
theorem consume_plain_CR (o : Line) (q : Str) (hq : Clean q) :
    consume o (q ++ ['\r']) [] [] = ([], q) := by
  rw [consume_append, consume_plain o q [] [] hq]
  simp [consume]

/-! ## The forced-flush loop -/

/-- The entry of a process id after the loop: gone when the id was evicted,
untouched otherwise. -/
theorem flushRemoved_buffers (reads : CheckReads) (pid : Pid) (removed : List Pid) :
    ∀ (m : LineBuffers) (ls : Lines),
    (flushRemoved reads removed m ls).2 pid = if pid ∈ removed then none else m pid := by
  induction removed with
  | nil => intro m ls; simp [flushRemoved]
  | cons q rest ih =>
    intro m ls
    unfold flushRemoved
    cases e : m.find q with
    | none =>
      simp only [ih, List.mem_cons]
      by_cases h1 : pid = q
      · subst h1
        have e2 : m pid = none := e
        simp [e2]
      · simp [h1]
    | some text =>
      have step : ∀ ks, (flushRemoved reads rest (m.erase q) ks).2 pid
          = if pid ∈ q :: rest then none else m pid := by
        intro ks
        rw [ih]
        by_cases h1 : pid = q
        · simp [h1, LineBuffers.erase]
        · simp [h1, LineBuffers.erase]
      simp only
      split
      · exact step _
      · exact step _

/-- No line of a process id is emitted by the loop when the id has no entry,
has an empty buffer, or was not evicted. -/
theorem flushRemoved_silent (reads : CheckReads) (pid : Pid) (removed : List Pid) :
    ∀ (m : LineBuffers) (ls : Lines),
    (m pid = none ∨ m pid = some [] ∨ pid ∉ removed) →
    (flushRemoved reads removed m ls).1.filter (fun l => l.pid = pid)
      = ls.filter (fun l => l.pid = pid) := by
  induction removed with
  | nil => intro m ls _; simp [flushRemoved]
  | cons q rest ih =>
    intro m ls h
    unfold flushRemoved
    by_cases h1 : q = pid
    · subst h1
      cases e : m.find q with
      | none => exact ih m ls (Or.inl e)
      | some text =>
        have e2 : m q = some text := e
        have ht : text = [] := by
          rcases h with h | h | h
          · rw [e2] at h; cases h
          · rw [e2] at h; cases h; rfl
          · exact absurd (List.mem_cons_self q rest) h
        subst ht
        simp only [List.isEmpty_nil, Bool.not_true, Bool.false_eq_true, if_false]
        exact ih _ ls (Or.inl (by simp [LineBuffers.erase]))
    · have hk : ∀ k : LineBuffers, k pid = m pid →
          (k pid = none ∨ k pid = some [] ∨ pid ∉ rest) := by
        intro k hk
        rw [hk]
        rcases h with h | h | h
        · exact Or.inl h
        · exact Or.inr (Or.inl h)
        · exact Or.inr (Or.inr (fun hm => h (List.mem_cons_of_mem q hm)))
      have hpq : pid ≠ q := fun e => h1 e.symm
      have he : (m.erase q) pid = m pid := by
        simp [LineBuffers.erase, hpq]
      cases e : m.find q with
      | none => exact ih m ls (hk m rfl)
      | some text =>
        simp only
        split
        · rw [ih _ _ (hk _ he), List.filter_append]
          simp [h1]
        · exact ih _ _ (hk _ he)

/-- Exactly one line is emitted by the loop for an evicted process id with a
non-empty buffer: the forced-flush line carrying that buffer. -/
theorem flushRemoved_once (reads : CheckReads) (pid : Pid) (b : Str) (hb : b ≠ [])
    (removed : List Pid) : ∀ (m : LineBuffers) (ls : Lines),
    pid ∈ removed → m pid = some b →
    (flushRemoved reads removed m ls).1.filter (fun l => l.pid = pid)
      = ls.filter (fun l => l.pid = pid)
        ++ [⟨reads.flushTime pid, reads.flushSystemTime pid, pid, flushName, b⟩] := by
  induction removed with
  | nil => intro m ls h; cases h
  | cons q rest ih =>
    intro m ls hmem hm
    unfold flushRemoved
    by_cases h1 : q = pid
    · subst h1
      have e : m.find q = some b := hm
      have hne : (!b.isEmpty) = true := by
        cases b with
        | nil => exact absurd rfl hb
        | cons c t => rfl
      simp only [e, hne, if_true]
      rw [flushRemoved_silent reads q rest _ _ (Or.inl (by simp [LineBuffers.erase])),
        List.filter_append]
      simp
    · have hrest : pid ∈ rest := by
        rcases List.mem_cons.mp hmem with h | h
        · exact absurd h.symm h1
        · exact h
      have hpq : pid ≠ q := fun e => h1 e.symm
      have he : (m.erase q) pid = some b := by
        simp [LineBuffers.erase, hpq, hm]
      cases e : m.find q with
      | none => exact ih m ls hrest hm
      | some text =>
        simp only
        split
        · rw [ih _ _ hrest he, List.filter_append]
          simp [h1]
        · exact ih _ _ hrest he

/-! ## One source at a time -/

theorem consume_pid (o : Line) (p : Str) : ∀ (m : Str) (ls : Lines),
    (∀ l ∈ ls, l.pid = o.pid) → ∀ l ∈ (consume o p m ls).1, l.pid = o.pid := by
  induction p with
  | nil => intro m ls h; exact h
  | cons c p ih =>
    intro m ls h
    by_cases h1 : c = '\r'
    · simp only [consume, h1, if_true]; exact ih m ls h
    · by_cases h2 : c = '\n'
      · subst h2
        simp only [consume, LF_ne_CR, if_true, if_false]
        apply ih
        intro l hl
        rcases List.mem_append.mp hl with hl | hl
        · exact h l hl
        · rw [List.mem_singleton.mp hl]
      · simp only [consume, h1, h2, if_false]; exact ih _ ls h

/-- Every line that `ProcessLine` emits carries the process id of its fragment. -/
theorem ProcessLine_pid (line : Line) (s : DBWinReader) :
    ∀ l ∈ (ProcessLine line s).1, l.pid = line.pid := by
  have hc := consume_pid line line.message (pendingOf s line.pid) [] (by simp)
  rw [ProcessLine_eq]
  split
  · exact hc
  · split
    · intro l hl
      rcases List.mem_append.mp hl with hl | hl
      · exact hc l hl
      · rw [List.mem_singleton.mp hl]
    · exact hc

/-- A `ProcessLine` call leaves the entry of every other process id as it was. -/
theorem ProcessLine_other (line : Line) (s : DBWinReader) (pid : Pid) (h : pid ≠ line.pid) :
    (ProcessLine line s).2.m_lineBuffers pid = s.m_lineBuffers pid := by
  rw [ProcessLine_eq]
  split
  · simp [LineBuffers.erase, h]
  · split
    · simp [LineBuffers.insert, h]
    · simp [LineBuffers.insert, h]

/-- What `ProcessLine` emits and stores for its source depends on the reader
only through the auto-newline option and the entry of that source. -/
theorem ProcessLine_congr (line : Line) (s t : DBWinReader)
    (ha : s.autoNewLine = t.autoNewLine)
    (hm : s.m_lineBuffers line.pid = t.m_lineBuffers line.pid) :
    (ProcessLine line s).1 = (ProcessLine line t).1 ∧
    (ProcessLine line s).2.m_lineBuffers line.pid
      = (ProcessLine line t).2.m_lineBuffers line.pid := by
  have hp : pendingOf s line.pid = pendingOf t line.pid := by
    simp only [pendingOf, LineBuffers.find, hm]
  rw [ProcessLine_eq, ProcessLine_eq, hp, ha]
  split
  · simp [LineBuffers.erase]
  · split
    · simp [LineBuffers.insert]
    · simp [LineBuffers.insert]

theorem processAll_project (a : Pid) (ls : List Line) : ∀ (s t : DBWinReader),
    s.autoNewLine = t.autoNewLine → s.m_lineBuffers a = t.m_lineBuffers a →
    (processAll ls s).1.filter (fun l => l.pid = a)
      = (processAll (ls.filter (fun l => l.pid = a)) t).1 ∧
    (processAll ls s).2.m_lineBuffers a
      = (processAll (ls.filter (fun l => l.pid = a)) t).2.m_lineBuffers a := by
  induction ls with
  | nil => intro s t _ hm; exact ⟨rfl, hm⟩
  | cons line rest ih =>
    intro s t ha hm
    by_cases h : line.pid = a
    · subst h
      obtain ⟨c1, c2⟩ := ProcessLine_congr line s t ha hm
      have ha2 : (ProcessLine line s).2.autoNewLine = (ProcessLine line t).2.autoNewLine := by
        rw [ProcessLine_autoNewLine, ProcessLine_autoNewLine, ha]
      obtain ⟨i1, i2⟩ := ih _ _ ha2 c2
      have hall : (ProcessLine line t).1.filter (fun l => l.pid = line.pid)
          = (ProcessLine line t).1 := by
        rw [List.filter_eq_self]
        intro l hl
        simp [ProcessLine_pid line t l hl]
      simp only [List.filter_cons, decide_True, if_true, processAll, List.filter_append]
      rw [i1, i2, c1, hall]
      exact ⟨rfl, rfl⟩
    · have ha2 : (ProcessLine line s).2.autoNewLine = t.autoNewLine := by
        rw [ProcessLine_autoNewLine, ha]
      have hm2 : (ProcessLine line s).2.m_lineBuffers a = t.m_lineBuffers a := by
        rw [ProcessLine_other line s a (fun e => h e.symm), hm]
      obtain ⟨i1, i2⟩ := ih _ _ ha2 hm2
      have hnone : (ProcessLine line s).1.filter (fun l => l.pid = a) = [] := by
        rw [List.filter_eq_nil_iff]
        intro l hl
        simp [ProcessLine_pid line s l hl, h]
      simp only [List.filter_cons, h, decide_False, Bool.false_eq_true, if_false, processAll,
        List.filter_append]
      rw [i1, i2, hnone]
      exact ⟨rfl, rfl⟩

/-! ## Claims -/

/-- C1 (amended): split-invariance of `ProcessLine` below the size bound. With
auto-newline off, for every reader state, every source and every payload cut
into `l1.message` and `l2.message`, if the text left pending by the first
fragment is at most 8192 bytes, then the two calls emit, in order, the same
line texts as one call with the whole payload and leave the same reassembly
map. -/
theorem C1_split_invariance_below_bound (l l1 l2 : Line) (s : DBWinReader)
    (hauto : s.autoNewLine = false)
    (h1 : l1.pid = l.pid) (h2 : l2.pid = l.pid)
    (hm : l.message = l1.message ++ l2.message)
    (hb : (consume l1 l1.message (pendingOf s l1.pid) []).2.length ≤ 8192) :
    ((ProcessLine l1 s).1 ++ (ProcessLine l2 (ProcessLine l1 s).2).1).map Line.message
      = (ProcessLine l s).1.map Line.message ∧
    (ProcessLine l2 (ProcessLine l1 s).2).2.m_lineBuffers = (ProcessLine l s).2.m_lineBuffers ∧
    pendingOf (ProcessLine l2 (ProcessLine l1 s).2).2 l.pid = pendingOf (ProcessLine l s).2 l.pid := by
  obtain ⟨e1, e2, e3⟩ := ProcessLine_noflush l1 s hauto hb
  have hauto1 : (ProcessLine l1 s).2.autoNewLine = false := by
    rw [ProcessLine_autoNewLine]; exact hauto
  -- the loop of the whole payload is the loop of the second after the first
  have hsnd : (consume l l.message (pendingOf s l.pid) []).2
      = (consume l2 l2.message (pendingOf (ProcessLine l1 s).2 l2.pid) []).2 := by
    rw [hm, consume_append, h2, ← h1, e2,
      consume_snd_indep l l1 l1.message (pendingOf s l1.pid) [] []]
    exact consume_snd_indep _ _ _ _ _ _
  have htxt : (consume l l.message (pendingOf s l.pid) []).1.map Line.message
      = (consume l1 l1.message (pendingOf s l1.pid) []).1.map Line.message ++
        (consume l2 l2.message (pendingOf (ProcessLine l1 s).2 l2.pid) []).1.map Line.message := by
    rw [hm, consume_append, consume_acc, h2, ← h1, e2, List.map_append]
    congr 1
    · exact consume_texts_indep _ _ _ _ _ _ rfl
    · rw [consume_snd_indep l l1 l1.message (pendingOf s l1.pid) [] []]
      exact consume_texts_indep _ _ _ _ _ _ rfl
  have hbuf : ∀ u, (ProcessLine l1 s).2.m_lineBuffers.insert l.pid u
        = s.m_lineBuffers.insert l.pid u ∧
      (ProcessLine l1 s).2.m_lineBuffers.erase l.pid = s.m_lineBuffers.erase l.pid := by
    intro u
    rcases e3 with e | ⟨t, e⟩
    · rw [e, h1]; exact ⟨insert_erase _ _ _, erase_erase _ _⟩
    · rw [e, h1]; exact ⟨insert_insert _ _ _ _, erase_insert _ _ _⟩
  have main : ∃ tail : List Str,
      (ProcessLine l2 (ProcessLine l1 s).2).1.map Line.message
        = (consume l2 l2.message (pendingOf (ProcessLine l1 s).2 l2.pid) []).1.map Line.message
          ++ tail ∧
      (ProcessLine l s).1.map Line.message
        = (consume l l.message (pendingOf s l.pid) []).1.map Line.message ++ tail ∧
      (ProcessLine l2 (ProcessLine l1 s).2).2.m_lineBuffers
        = (ProcessLine l s).2.m_lineBuffers := by
    rw [ProcessLine_eq l2, ProcessLine_eq l, hauto, hauto1, ← hsnd, h2]
    by_cases hz : (consume l l.message (pendingOf s l.pid) []).2 = []
    · refine ⟨[], ?_⟩
      simp only [hz, if_true, (hbuf []).2]
      simp
    · by_cases hlen : 8192 < (consume l l.message (pendingOf s l.pid) []).2.length
      · refine ⟨[(consume l l.message (pendingOf s l.pid) []).2], ?_⟩
        simp only [hz, hlen, if_false, if_true, or_true, (hbuf []).1]
        simp
      · refine ⟨[], ?_⟩
        simp only [hz, hlen, if_false, or_false, Bool.false_eq_true, (hbuf _).1]
        simp
  obtain ⟨tail, m1, m2, m3⟩ := main
  refine ⟨?_, m3, ?_⟩
  · rw [List.map_append, e1, m1, m2, htxt, List.append_assoc]
  · simp only [pendingOf, LineBuffers.find, m3]


/-- The payload "hello world" with its line feed, cut after "hello ": both ways give the one
line "hello world" and the same reassembly map. -/
theorem C1_split_invariance_below_bound_witness :
    (DBWinReader.new false).autoNewLine = false ∧
    ((ProcessLine (rawLine 1 "hello ".toList) (DBWinReader.new false)).1 ++
      (ProcessLine (rawLine 1 "world\n".toList)
        (ProcessLine (rawLine 1 "hello ".toList) (DBWinReader.new false)).2).1).map Line.message
      = (ProcessLine (rawLine 1 "hello world\n".toList) (DBWinReader.new false)).1.map
          Line.message ∧
    (ProcessLine (rawLine 1 "world\n".toList)
        (ProcessLine (rawLine 1 "hello ".toList) (DBWinReader.new false)).2).2.m_lineBuffers
      = (ProcessLine (rawLine 1 "hello world\n".toList) (DBWinReader.new false)).2.m_lineBuffers ∧
    pendingOf (ProcessLine (rawLine 1 "world\n".toList)
        (ProcessLine (rawLine 1 "hello ".toList) (DBWinReader.new false)).2).2 1
      = pendingOf (ProcessLine (rawLine 1 "hello world\n".toList) (DBWinReader.new false)).2 1 :=
  ⟨rfl, C1_split_invariance_below_bound (rawLine 1 "hello world\n".toList)
    (rawLine 1 "hello ".toList) (rawLine 1 "world\n".toList) (DBWinReader.new false)
    rfl rfl rfl (by decide) (by decide)⟩

/-- C1 fails as stated: from a fresh reader with auto-newline off, the payload
of 8193 letters and a line feed, cut before the line feed, emits two lines (the
letters, flushed by the size bound, then an empty line), while the uncut
payload emits one. -/
theorem C1_counterexample :
    (DBWinReader.new false).autoNewLine = false ∧
    ((ProcessLine (rawLine 1 (List.replicate 8193 'a')) (DBWinReader.new false)).1 ++
      (ProcessLine (rawLine 1 ['\n'])
        (ProcessLine (rawLine 1 (List.replicate 8193 'a')) (DBWinReader.new false)).2).1).map
          Line.message
      = [List.replicate 8193 'a', []] ∧
    (ProcessLine (rawLine 1 (List.replicate 8193 'a' ++ ['\n'])) (DBWinReader.new false)).1.map
        Line.message
      = [List.replicate 8193 'a'] := by
  have key : ∀ p : Str, Clean p → 8192 < p.length →
      ((ProcessLine (rawLine 1 p) (DBWinReader.new false)).1 ++
        (ProcessLine (rawLine 1 ['\n'])
          (ProcessLine (rawLine 1 p) (DBWinReader.new false)).2).1).map Line.message = [p, []] ∧
      (ProcessLine (rawLine 1 (p ++ ['\n'])) (DBWinReader.new false)).1.map Line.message
        = [p] := by
    intro p hp hlen
    have hne : p ≠ [] := by intro e; simp [e] at hlen
    have e0 : pendingOf (DBWinReader.new false) 1 = [] := rfl
    have e1 : ProcessLine (rawLine 1 p) (DBWinReader.new false)
        = ([{ rawLine 1 p with message := p }],
           { DBWinReader.new false with
             m_lineBuffers := (DBWinReader.new false).m_lineBuffers.insert 1 [] }) := by
      rw [ProcessLine_eq]
      simp only [rawLine, e0, consume_plain _ p [] [] hp, List.nil_append, hne, if_false, hlen,
        or_true, if_true]
    have e2 : consume (rawLine 1 (p ++ ['\n'])) (p ++ ['\n']) [] []
        = ([{ rawLine 1 (p ++ ['\n']) with message := p }], []) := by
      rw [consume_append, consume_plain _ p [] [] hp]
      simp [consume]
    constructor
    · rw [e1]; rfl
    · rw [ProcessLine_eq]
      simp only [rawLine, e0] at e2 ⊢
      simp [e2]
  exact ⟨rfl, key _ (clean_replicate 8193 'a' (by decide) (by decide))
    (by rw [List.length_replicate]; decide)⟩

/-- C2: with auto-newline off, in every reader state of a run, when the pending
text of the source followed by the payload without its carriage returns is the
text of the line-feed-terminated segments `texts` followed by the unterminated
`rest` of at most 8192 bytes, `ProcessLine` emits exactly `texts`, in order, as
lines of the fragment, and leaves `rest` pending. -/
theorem C2_reference_definition (line : Line) (s : DBWinReader) (texts : List Str) (rest : Str)
    (hr : Reachable s) (hauto : s.autoNewLine = false)
    (ht : ∀ t ∈ texts, '\n' ∉ t) (hrest : '\n' ∉ rest)
    (hs : pendingOf s line.pid ++ stripCR line.message = terminated texts rest)
    (hlen : rest.length ≤ 8192) :
    (ProcessLine line s).1 = texts.map (fun t => { line with message := t }) ∧
    pendingOf (ProcessLine line s).2 line.pid = rest := by
  have hb : '\n' ∉ pendingOf s line.pid := (pendingOf_clean (reachable_clean hr) line.pid).2
  have hc := consume_terminated line line.message _ texts rest hb ht hrest hs
  obtain ⟨e1, e2, _⟩ := ProcessLine_noflush line s hauto (by rw [hc]; exact hlen)
  rw [e1, e2, hc]
  exact ⟨rfl, rfl⟩

/-- The fragments "hello " then "world" with a line feed, from source 1, give exactly the line
"hello world"; the fragment of "a" and "b", each with a line feed, from source 2, gives
exactly the lines "a" then "b". -/
theorem C2_reference_definition_witness :
    ((ProcessLine (rawLine 1 "world\n".toList)
        (ProcessLine (rawLine 1 "hello ".toList) (DBWinReader.new false)).2).1
      = ["hello world".toList].map (fun t => { rawLine 1 "world\n".toList with message := t }) ∧
     pendingOf (ProcessLine (rawLine 1 "world\n".toList)
        (ProcessLine (rawLine 1 "hello ".toList) (DBWinReader.new false)).2).2 1 = []) ∧
    ((ProcessLine (rawLine 2 "a\nb\n".toList) (DBWinReader.new false)).1
      = ["a".toList, "b".toList].map (fun t => { rawLine 2 "a\nb\n".toList with message := t }) ∧
     pendingOf (ProcessLine (rawLine 2 "a\nb\n".toList) (DBWinReader.new false)).2 2 = []) :=
  ⟨C2_reference_definition (rawLine 1 "world\n".toList)
      (ProcessLine (rawLine 1 "hello ".toList) (DBWinReader.new false)).2
      ["hello world".toList] []
      (Reachable.processLine _ (Reachable.init false)) rfl (by decide) (by decide) (by decide)
      (by decide),
   C2_reference_definition (rawLine 2 "a\nb\n".toList) (DBWinReader.new false)
      ["a".toList, "b".toList] []
      (Reachable.init false) rfl (by decide) (by decide) (by decide) (by decide)⟩

/-- C3: in every reader state reached from a constructed reader by `ProcessLine`
and `CheckHandleCache` calls, no pending buffer holds a carriage return or a
line feed, and neither does the text of any line that the next `ProcessLine` or
the next `CheckHandleCache` emits. -/
theorem C3_no_CR_LF (s : DBWinReader) (h : Reachable s) :
    (∀ pid b, s.m_lineBuffers pid = some b → '\r' ∉ b ∧ '\n' ∉ b) ∧
    (∀ line, ∀ l ∈ (ProcessLine line s).1, '\r' ∉ l.message ∧ '\n' ∉ l.message) ∧
    (∀ reads, ∀ l ∈ (CheckHandleCache reads s).1, '\r' ∉ l.message ∧ '\n' ∉ l.message) :=
  ⟨reachable_clean h,
   fun line => (ProcessLine_clean line s (reachable_clean h)).1,
   fun reads => (CheckHandleCache_clean reads s (reachable_clean h)).1⟩

/-- The invariant in the state reached by one fragment that carries carriage returns and a
line feed. -/
theorem C3_no_CR_LF_witness :
    Reachable (ProcessLine (rawLine 1 "a\r\nb\r".toList) (DBWinReader.new false)).2 ∧
    ((∀ pid b, (ProcessLine (rawLine 1 "a\r\nb\r".toList)
          (DBWinReader.new false)).2.m_lineBuffers pid = some b → '\r' ∉ b ∧ '\n' ∉ b) ∧
     (∀ line, ∀ l ∈ (ProcessLine line
          (ProcessLine (rawLine 1 "a\r\nb\r".toList) (DBWinReader.new false)).2).1,
        '\r' ∉ l.message ∧ '\n' ∉ l.message) ∧
     (∀ reads, ∀ l ∈ (CheckHandleCache reads
          (ProcessLine (rawLine 1 "a\r\nb\r".toList) (DBWinReader.new false)).2).1,
        '\r' ∉ l.message ∧ '\n' ∉ l.message)) :=
  ⟨Reachable.processLine _ (Reachable.init false),
   C3_no_CR_LF _ (Reachable.processLine _ (Reachable.init false))⟩

/-- C4 (amended): for every source with no pending text and every payload
without line feed whose content, carriage returns removed, is longer than 8192
bytes, one `ProcessLine` call emits exactly one line, whose text is that
content, and leaves nothing pending for the source. -/
theorem C4_overlong_payload_one_line (line : Line) (s : DBWinReader)
    (h0 : pendingOf s line.pid = []) (hLF : '\n' ∉ line.message)
    (hlen : 8192 < (stripCR line.message).length) :
    (ProcessLine line s).1 = [{ line with message := stripCR line.message }] ∧
    pendingOf (ProcessLine line s).2 line.pid = [] :=
  ProcessLine_overlong line s h0 hLF hlen

/-- A payload of 8193 letters at a fresh source: one line, nothing pending. -/
theorem C4_overlong_payload_one_line_witness :
    pendingOf (DBWinReader.new false) 1 = [] ∧
    (ProcessLine (rawLine 1 (List.replicate 8193 'a')) (DBWinReader.new false)).1
      = [{ rawLine 1 (List.replicate 8193 'a') with
           message := stripCR (List.replicate 8193 'a') }] ∧
    pendingOf (ProcessLine (rawLine 1 (List.replicate 8193 'a')) (DBWinReader.new false)).2 1
      = [] :=
  ⟨rfl, C4_overlong_payload_one_line (rawLine 1 (List.replicate 8193 'a')) (DBWinReader.new false)
    rfl (clean_replicate 8193 'a' (by decide) (by decide)).2
    (by
      show 8192 < (stripCR (List.replicate 8193 'a')).length
      rw [stripCR_clean (clean_replicate 8193 'a' (by decide) (by decide)),
        List.length_replicate]
      decide)⟩

/-- C4 fails as stated: a payload of 8192 letters and one carriage return has no
line feed and is 8193 bytes long, yet `ProcessLine` emits no line and keeps the
8192 letters pending. -/
theorem C4_counterexample :
    pendingOf (DBWinReader.new false) 1 = [] ∧
    '\n' ∉ List.replicate 8192 'a' ++ ['\r'] ∧
    8192 < (List.replicate 8192 'a' ++ ['\r']).length ∧
    (ProcessLine (rawLine 1 (List.replicate 8192 'a' ++ ['\r'])) (DBWinReader.new false)).1
      = [] ∧
    pendingOf (ProcessLine (rawLine 1 (List.replicate 8192 'a' ++ ['\r']))
      (DBWinReader.new false)).2 1 = List.replicate 8192 'a' := by
  have key : ∀ q : Str, Clean q → q ≠ [] → q.length ≤ 8192 →
      (ProcessLine (rawLine 1 (q ++ ['\r'])) (DBWinReader.new false)).1 = [] ∧
      pendingOf (ProcessLine (rawLine 1 (q ++ ['\r'])) (DBWinReader.new false)).2 1 = q := by
    intro q hq _ hlen
    have hcons : consume (rawLine 1 (q ++ ['\r'])) (rawLine 1 (q ++ ['\r'])).message
        (pendingOf (DBWinReader.new false) (rawLine 1 (q ++ ['\r'])).pid) [] = ([], q) :=
      consume_plain_CR _ q hq
    obtain ⟨e1, e2, _⟩ := ProcessLine_noflush (rawLine 1 (q ++ ['\r'])) (DBWinReader.new false)
      rfl (by rw [hcons]; exact hlen)
    rw [hcons] at e1 e2
    exact ⟨e1, e2⟩
  have hc := clean_replicate 8192 'a' (by decide) (by decide)
  refine ⟨rfl, ?_, ?_, key _ hc ?_ ?_⟩
  · simp only [List.mem_append, List.mem_singleton, not_or]
    exact ⟨hc.2, by decide⟩
  · rw [List.length_append, List.length_replicate]; decide
  · intro e
    have := congrArg List.length e
    rw [List.length_replicate] at this
    exact absurd this (by decide)
  · rw [List.length_replicate]

/-- C5 (amended): for a source with no pending text and a fragment of 9000
identical bytes, the byte being neither a carriage return nor a line feed, one
`ProcessLine` call emits exactly one line, whose text is the whole fragment
(9000 bytes), and leaves nothing pending for the source. -/
theorem C5_nine_thousand_bytes_one_line (c : Char) (line : Line) (s : DBWinReader)
    (h1 : c ≠ '\r') (h2 : c ≠ '\n')
    (h0 : pendingOf s line.pid = []) (hm : line.message = List.replicate 9000 c) :
    (ProcessLine line s).1 = [line] ∧
    (ProcessLine line s).1.map (fun l => l.message.length) = [9000] ∧
    pendingOf (ProcessLine line s).2 line.pid = [] := by
  have hc : Clean line.message := hm ▸ clean_replicate 9000 c h1 h2
  have hlen : line.message.length = 9000 := by rw [hm, List.length_replicate]
  obtain ⟨e1, e2⟩ := ProcessLine_overlong line s h0 hc.2 (by rw [stripCR_clean hc, hlen]; decide)
  rw [stripCR_clean hc] at e1
  refine ⟨e1, ?_, e2⟩
  rw [e1]
  simp only [List.map_cons, List.map_nil, hlen]

/-- A fragment of 9000 times the letter x at a fresh source. -/
theorem C5_nine_thousand_bytes_one_line_witness :
    pendingOf (DBWinReader.new false) 1 = [] ∧
    (ProcessLine (rawLine 1 (List.replicate 9000 'x')) (DBWinReader.new false)).1
      = [rawLine 1 (List.replicate 9000 'x')] ∧
    (ProcessLine (rawLine 1 (List.replicate 9000 'x')) (DBWinReader.new false)).1.map
      (fun l => l.message.length) = [9000] ∧
    pendingOf (ProcessLine (rawLine 1 (List.replicate 9000 'x')) (DBWinReader.new false)).2 1
      = [] :=
  ⟨rfl, C5_nine_thousand_bytes_one_line 'x' (rawLine 1 (List.replicate 9000 'x'))
    (DBWinReader.new false) (by decide) (by decide) rfl rfl⟩

/-- C5 fails as stated: a fragment of 9000 letters arriving at a fresh source
is emitted as one line of 9000 bytes, not 8192, and leaves 0 bytes pending, not
808. -/
theorem C5_counterexample :
    pendingOf (DBWinReader.new false) 1 = [] ∧
    (ProcessLine (rawLine 1 (List.replicate 9000 'a')) (DBWinReader.new false)).1.map
      (fun l => l.message.length) = [9000] ∧
    (pendingOf (ProcessLine (rawLine 1 (List.replicate 9000 'a'))
      (DBWinReader.new false)).2 1).length = 0 := by
  have hc : Clean (rawLine 1 (List.replicate 9000 'a')).message :=
    clean_replicate 9000 'a' (by decide) (by decide)
  have hlen : (rawLine 1 (List.replicate 9000 'a')).message.length = 9000 :=
    List.length_replicate 9000 'a'
  obtain ⟨e1, e2⟩ := ProcessLine_overlong (rawLine 1 (List.replicate 9000 'a'))
    (DBWinReader.new false) rfl hc.2 (by rw [stripCR_clean hc, hlen]; decide)
  rw [stripCR_clean hc] at e1
  refine ⟨rfl, ?_, ?_⟩
  · rw [e1]
    simp only [List.map_cons, List.map_nil, hlen]
  · have e3 : pendingOf (ProcessLine (rawLine 1 (List.replicate 9000 'a'))
        (DBWinReader.new false)).2 1 = [] := e2
    rw [e3]; rfl

/-- C6: with auto-newline off, for every source and every payload without line
feed, if the old buffer followed by the payload (carriage returns skipped) is
under 8192 bytes, `ProcessLine` emits no line and the pending buffer becomes the
old buffer followed by the payload without its carriage returns. -/
theorem C6_short_payload_stays_pending (line : Line) (s : DBWinReader)
    (hauto : s.autoNewLine = false) (hLF : '\n' ∉ line.message)
    (hlen : (pendingOf s line.pid ++ stripCR line.message).length < 8192) :
    (ProcessLine line s).1 = [] ∧
    pendingOf (ProcessLine line s).2 line.pid = pendingOf s line.pid ++ stripCR line.message := by
  have hc := consume_noLF line line.message (pendingOf s line.pid) [] hLF
  obtain ⟨e1, e2, _⟩ := ProcessLine_noflush line s hauto (by rw [hc]; exact Nat.le_of_lt hlen)
  rw [e1, e2, hc]
  exact ⟨rfl, rfl⟩

/-- Three letters pending, then a payload with a carriage return and no line feed: no line,
the payload without the carriage return is appended. -/
theorem C6_short_payload_stays_pending_witness :
    (ProcessLine (rawLine 1 "lo\r wo".toList)
        (ProcessLine (rawLine 1 "hel".toList) (DBWinReader.new false)).2).1 = [] ∧
    pendingOf (ProcessLine (rawLine 1 "lo\r wo".toList)
        (ProcessLine (rawLine 1 "hel".toList) (DBWinReader.new false)).2).2 1
      = pendingOf (ProcessLine (rawLine 1 "hel".toList) (DBWinReader.new false)).2 1
          ++ stripCR "lo\r wo".toList :=
  C6_short_payload_stays_pending (rawLine 1 "lo\r wo".toList)
    (ProcessLine (rawLine 1 "hel".toList) (DBWinReader.new false)).2 rfl (by decide) (by decide)

/-- C7 fails on the code: starting from a reassembly map without any entry, a
`ProcessLine` call that ends in an auto-newline flush, or in a size-bound flush,
leaves the entry of the source in the map with an empty buffer. -/
theorem C7_empty_entry_after_flush :
    (∀ pid, (DBWinReader.new true).m_lineBuffers pid ≠ some []) ∧
    (ProcessLine (rawLine 1 ['a']) (DBWinReader.new true)).2.m_lineBuffers 1 = some [] ∧
    (∀ pid, (DBWinReader.new false).m_lineBuffers pid ≠ some []) ∧
    (ProcessLine (rawLine 1 (List.replicate 8193 'a')) (DBWinReader.new false)).2.m_lineBuffers 1
      = some [] := by
  refine ⟨fun _ h => (nomatch h), by decide, fun _ h => (nomatch h), ?_⟩
  have hc : Clean (rawLine 1 (List.replicate 8193 'a')).message :=
    clean_replicate 8193 'a' (by decide) (by decide)
  have hcons : consume (rawLine 1 (List.replicate 8193 'a'))
      (rawLine 1 (List.replicate 8193 'a')).message
      (pendingOf (DBWinReader.new false) (rawLine 1 (List.replicate 8193 'a')).pid) []
      = ([], List.replicate 8193 'a') := by
    rw [consume_plain _ _ _ _ hc]; rfl
  have hne : List.replicate 8193 'a' ≠ [] := by
    intro e
    have := congrArg List.length e
    rw [List.length_replicate] at this
    exact absurd this (by decide)
  rw [ProcessLine_eq, hcons]
  simp only [hne, if_false, List.length_replicate]
  rw [if_pos (Or.inr (by decide))]
  exact insert_self (DBWinReader.new false).m_lineBuffers 1

/-- C8: when the gate of `CheckHandleCache` is open, for every process id that
`Cleanup` returns as evicted and that has a non-empty pending buffer, the result
holds exactly one line of that id, with origin name "<flush>" and the pending
buffer as text, and after the call the id has no entry in the reassembly map. -/
theorem C8_forced_flush_once (reads : CheckReads) (s : DBWinReader) (pid : Pid) (b : Str)
    (hgate : ¬ (reads.gate - s.m_handleCacheTime < HandleCacheTimeout))
    (hev : pid ∈ (s.m_handleCache.Cleanup reads.cleanup).1)
    (hb : s.m_lineBuffers pid = some b) (hne : b ≠ []) :
    (CheckHandleCache reads s).1.filter (fun l => l.pid = pid)
      = [⟨reads.flushTime pid, reads.flushSystemTime pid, pid, "<flush>".toList, b⟩] ∧
    (CheckHandleCache reads s).2.m_lineBuffers pid = none := by
  unfold CheckHandleCache
  rw [if_neg hgate]
  constructor
  · exact flushRemoved_once reads pid b hne _ _ [] hev hb
  · show (flushRemoved reads _ s.m_lineBuffers []).2 pid = none
    rw [flushRemoved_buffers, if_pos hev]

/-- Source 7 has "abc" pending and was last seen at second 1; the check at second 20 evicts
it, emits the one forced-flush line and erases the entry. -/
theorem C8_forced_flush_once_witness :
    (CheckHandleCache ⟨20, 20, fun _ => 20, fun _ => 5, 20⟩
        { (ProcessLine (rawLine 7 "abc".toList) (DBWinReader.new false)).2 with
          m_handleCache := HandleCache.Add [] 1 7 42 }).1.filter (fun l => l.pid = 7)
      = [⟨20, 5, 7, "<flush>".toList, "abc".toList⟩] ∧
    (CheckHandleCache ⟨20, 20, fun _ => 20, fun _ => 5, 20⟩
        { (ProcessLine (rawLine 7 "abc".toList) (DBWinReader.new false)).2 with
          m_handleCache := HandleCache.Add [] 1 7 42 }).2.m_lineBuffers 7 = none :=
  C8_forced_flush_once ⟨20, 20, fun _ => 20, fun _ => 5, 20⟩
    { (ProcessLine (rawLine 7 "abc".toList) (DBWinReader.new false)).2 with
      m_handleCache := HandleCache.Add [] 1 7 42 } 7 "abc".toList
    (by show ¬ ((20 : Rat) - 0 < HandleCacheTimeout)
        norm_num [HandleCacheTimeout])
    (by show 7 ∈ (HandleCache.Cleanup (HandleCache.Add [] 1 7 42) 20).1
        norm_num [HandleCache.Cleanup, HandleCache.Add, HandleCacheTimeout])
    (by decide) (by decide)

/-- C9: source independence. A `ProcessLine` call leaves the entry of every
source other than its own unchanged; hence, for every sequence of fragments of
any sources processed from any reader state, the lines emitted with source id
`a` are, in order, exactly the lines emitted when only the fragments of `a` are
processed from that state, and the entry of `a` at the end is the same. -/
theorem C9_source_independence (a : Pid) (ls : List Line) (s : DBWinReader) :
    (∀ line : Line, a ≠ line.pid →
      (ProcessLine line s).2.m_lineBuffers a = s.m_lineBuffers a) ∧
    (processAll ls s).1.filter (fun l => l.pid = a)
      = (processAll (ls.filter (fun l => l.pid = a)) s).1 ∧
    (processAll ls s).2.m_lineBuffers a
      = (processAll (ls.filter (fun l => l.pid = a)) s).2.m_lineBuffers a :=
  ⟨fun line h => ProcessLine_other line s a h, processAll_project a ls s s rfl rfl⟩

/-- Sources 1 and 2 interleaved: the lines of source 1 are those of its two fragments alone. -/
theorem C9_source_independence_witness :
    (ProcessLine (rawLine 2 "x\ny".toList) (DBWinReader.new false)).2.m_lineBuffers 1
      = (DBWinReader.new false).m_lineBuffers 1 ∧
    (processAll [rawLine 1 "he".toList, rawLine 2 "x\ny".toList, rawLine 1 "llo\n".toList,
        rawLine 2 "z\n".toList] (DBWinReader.new false)).1.filter (fun l => l.pid = 1)
      = (processAll [rawLine 1 "he".toList, rawLine 1 "llo\n".toList] (DBWinReader.new false)).1 :=
  ⟨(C9_source_independence 1 [] (DBWinReader.new false)).1 (rawLine 2 "x\ny".toList)
      (by decide),
   (C9_source_independence 1 [rawLine 1 "he".toList, rawLine 2 "x\ny".toList,
      rawLine 1 "llo\n".toList, rawLine 2 "z\n".toList] (DBWinReader.new false)).2.1⟩

/-- C10: with auto-newline on, for every source and every payload, the text
that the payload loop leaves pending is emitted as the last line of the call
(nothing is added when nothing is left), and the pending buffer of the source is
empty after the call; a payload without line feed is emitted at once, together
with the text that was pending. -/
theorem C10_autoNewLine_flushes (line : Line) (s : DBWinReader) (hauto : s.autoNewLine = true) :
    pendingOf (ProcessLine line s).2 line.pid = [] ∧
    (ProcessLine line s).1
      = (consume line line.message (pendingOf s line.pid) []).1 ++
        (if (consume line line.message (pendingOf s line.pid) []).2 = [] then []
         else [{ line with message := (consume line line.message (pendingOf s line.pid) []).2 }]) ∧
    ('\n' ∉ line.message → pendingOf s line.pid ++ stripCR line.message ≠ [] →
      (ProcessLine line s).1
        = [{ line with message := pendingOf s line.pid ++ stripCR line.message }]) := by
  have main : pendingOf (ProcessLine line s).2 line.pid = [] ∧
      (ProcessLine line s).1
        = (consume line line.message (pendingOf s line.pid) []).1 ++
          (if (consume line line.message (pendingOf s line.pid) []).2 = [] then []
           else [{ line with
                   message := (consume line line.message (pendingOf s line.pid) []).2 }]) := by
    rw [ProcessLine_eq]
    by_cases hz : (consume line line.message (pendingOf s line.pid) []).2 = []
    · simp only [hz, if_true, pendingOf_erase, List.append_nil, and_self]
    · rw [if_neg hz, if_pos (Or.inl hauto)]
      exact ⟨pendingOf_insert _ _ _, by rw [if_neg hz]⟩
  refine ⟨main.1, main.2, ?_⟩
  intro hLF hne
  rw [main.2, consume_noLF line line.message _ [] hLF]
  simp only [hne, if_false, List.nil_append]

/-- With auto-newline on, the payload "a", line feed, "bc" gives the lines "a" and "bc" and
leaves nothing pending. -/
theorem C10_autoNewLine_flushes_witness :
    pendingOf (ProcessLine (rawLine 1 "a\nbc".toList) (DBWinReader.new true)).2 1 = [] ∧
    (ProcessLine (rawLine 1 "a\nbc".toList) (DBWinReader.new true)).1
      = [{ rawLine 1 "a\nbc".toList with message := "a".toList },
         { rawLine 1 "a\nbc".toList with message := "bc".toList }] :=
  ⟨(C10_autoNewLine_flushes (rawLine 1 "a\nbc".toList) (DBWinReader.new true) rfl).1,
   (C10_autoNewLine_flushes (rawLine 1 "a\nbc".toList) (DBWinReader.new true) rfl).2.1⟩

/-! ## The size bound between calls -/

theorem ProcessLine_bounded (line : Line) (s : DBWinReader)
    (h : BuffersBounded s.m_lineBuffers) :
    BuffersBounded (ProcessLine line s).2.m_lineBuffers := by
  rw [ProcessLine_eq]
  intro pid b
  split
  · intro hb
    simp only [LineBuffers.erase] at hb
    split at hb
    · cases hb
    · exact h pid b hb
  · next hz =>
    split
    · intro hb
      simp only [LineBuffers.insert] at hb
      split at hb
      · cases hb; exact Nat.zero_le _
      · exact h pid b hb
    · next hf =>
      intro hb
      simp only [LineBuffers.insert] at hb
      split at hb
      · cases hb
        exact Nat.le_of_not_lt (fun hlt => hf (Or.inr hlt))
      · exact h pid b hb

theorem CheckHandleCache_bounded (reads : CheckReads) (s : DBWinReader)
    (h : BuffersBounded s.m_lineBuffers) :
    BuffersBounded (CheckHandleCache reads s).2.m_lineBuffers := by
  unfold CheckHandleCache
  split
  · exact h
  · intro pid b hb
    have hb2 : (flushRemoved reads (s.m_handleCache.Cleanup reads.cleanup).1
        s.m_lineBuffers []).2 pid = some b := hb
    rw [flushRemoved_buffers] at hb2
    split at hb2
    · cases hb2
    · exact h pid b hb2

theorem reachable_bounded {s : DBWinReader} (h : Reachable s) :
    BuffersBounded s.m_lineBuffers := by
  induction h with
  | init a => intro pid b hb; simp [DBWinReader.new, LineBuffers.empty] at hb
  | processLine line _ ih => exact ProcessLine_bounded line _ ih
  | checkHandleCache reads _ ih => exact CheckHandleCache_bounded reads _ ih
  | other t _ e ih => rw [e]; exact ih

theorem consume_snoc_LF (o : Line) (p : Str) (m : Str) (ls : Lines) :
    (consume o (p ++ ['\n']) m ls).2 = [] := by
  rw [consume_append]
  simp only [consume, LF_ne_CR, if_true, if_false]

/-- The entry of the source is erased when the payload loop leaves nothing
pending. -/
theorem ProcessLine_erases (line : Line) (s : DBWinReader)
    (h : (consume line line.message (pendingOf s line.pid) []).2 = []) :
    (ProcessLine line s).2.m_lineBuffers line.pid = none := by
  rw [ProcessLine_eq, if_pos h]
  simp [LineBuffers.erase]

/-! ## Claims, continued -/

/-- C11: memory bound. In every reader state reached from a constructed reader
(empty reassembly map) by `ProcessLine` and `CheckHandleCache` calls, for any
payloads, every entry of the reassembly map holds at most 8192 bytes, and so
does the pending text of every source. -/
theorem C11_buffer_bound (s : DBWinReader) (h : Reachable s) :
    (∀ pid b, s.m_lineBuffers pid = some b → b.length ≤ 8192) ∧
    (∀ pid, (pendingOf s pid).length ≤ 8192) := by
  refine ⟨reachable_bounded h, fun pid => ?_⟩
  unfold pendingOf LineBuffers.find
  cases e : s.m_lineBuffers pid with
  | none => exact Nat.zero_le _
  | some b => exact reachable_bounded h pid b e

/-- The bound after a fragment of 9000 letters without line feed, followed by
one more letter. -/
theorem C11_buffer_bound_witness :
    Reachable (ProcessLine (rawLine 1 ['y'])
      (ProcessLine (rawLine 1 (List.replicate 9000 'x')) (DBWinReader.new false)).2).2 ∧
    ((∀ pid b, (ProcessLine (rawLine 1 ['y'])
        (ProcessLine (rawLine 1 (List.replicate 9000 'x'))
          (DBWinReader.new false)).2).2.m_lineBuffers pid = some b → b.length ≤ 8192) ∧
     (∀ pid, (pendingOf (ProcessLine (rawLine 1 ['y'])
        (ProcessLine (rawLine 1 (List.replicate 9000 'x'))
          (DBWinReader.new false)).2).2 pid).length ≤ 8192)) :=
  ⟨Reachable.processLine _ (Reachable.processLine _ (Reachable.init false)),
   C11_buffer_bound _ (Reachable.processLine _ (Reachable.processLine _ (Reachable.init false)))⟩

/-- C12: the time gate of `CheckHandleCache`. When less than 15 seconds have
elapsed since the last check, the call returns no line and leaves the whole
reader (reassembly map, handle cache, time of the last check) unchanged; when
at least 15 seconds have elapsed, exactly 15 included, the call runs `Cleanup`,
which leaves the handle cache without the evicted entries, flushes the evicted
ids and stores the timer reading as the time of the last check. -/
theorem C12_time_gate (reads : CheckReads) (s : DBWinReader) :
    (reads.gate - s.m_handleCacheTime < 15 → CheckHandleCache reads s = ([], s)) ∧
    (15 ≤ reads.gate - s.m_handleCacheTime →
      (CheckHandleCache reads s).1
        = (flushRemoved reads (s.m_handleCache.Cleanup reads.cleanup).1 s.m_lineBuffers []).1 ∧
      (CheckHandleCache reads s).2.m_lineBuffers
        = (flushRemoved reads (s.m_handleCache.Cleanup reads.cleanup).1 s.m_lineBuffers []).2 ∧
      (CheckHandleCache reads s).2.m_handleCache = (s.m_handleCache.Cleanup reads.cleanup).2 ∧
      (CheckHandleCache reads s).2.m_handleCacheTime = reads.stamp) := by
  constructor
  · intro h
    unfold CheckHandleCache
    rw [if_pos (by simpa [HandleCacheTimeout] using h)]
  · intro h
    unfold CheckHandleCache
    rw [if_neg (by simpa [HandleCacheTimeout] using h)]
    exact ⟨rfl, rfl, rfl, rfl⟩

/-- The gate at 14.9 seconds (closed) and at exactly 15 seconds (open) after a
last check at second 2. -/
theorem C12_time_gate_witness :
    CheckHandleCache ⟨169 / 10, 17, fun _ => 17, fun _ => 5, 17⟩
        { DBWinReader.new false with m_handleCacheTime := 2 }
      = ([], { DBWinReader.new false with m_handleCacheTime := 2 }) ∧
    (CheckHandleCache ⟨17, 17, fun _ => 17, fun _ => 5, 18⟩
        { DBWinReader.new false with m_handleCacheTime := 2 }).2.m_handleCacheTime = 18 :=
  ⟨(C12_time_gate ⟨169 / 10, 17, fun _ => 17, fun _ => 5, 17⟩
      { DBWinReader.new false with m_handleCacheTime := 2 }).1
      (by show (169 / 10 : Rat) - 2 < 15
          norm_num),
   ((C12_time_gate ⟨17, 17, fun _ => 17, fun _ => 5, 18⟩
      { DBWinReader.new false with m_handleCacheTime := 2 }).2
      (by show (15 : Rat) ≤ 17 - 2
          norm_num)).2.2.2⟩

/-- C14: for every source and payload, if the payload loop of `ProcessLine`
leaves the pending buffer of the source empty, the source has no entry in the
reassembly map after the call; so it is when the payload ends with a line feed,
and when the payload is empty and nothing was pending. -/
theorem C14_empty_buffer_erased (line : Line) (s : DBWinReader) :
    ((consume line line.message (pendingOf s line.pid) []).2 = [] →
      (ProcessLine line s).2.m_lineBuffers line.pid = none) ∧
    (∀ p : Str, line.message = p ++ ['\n'] →
      (ProcessLine line s).2.m_lineBuffers line.pid = none) ∧
    (line.message = [] → pendingOf s line.pid = [] →
      (ProcessLine line s).2.m_lineBuffers line.pid = none) := by
  refine ⟨ProcessLine_erases line s, fun p hp => ?_, fun hm h0 => ?_⟩
  · apply ProcessLine_erases
    rw [hp]; exact consume_snoc_LF _ _ _ _
  · apply ProcessLine_erases
    rw [hm, h0]; rfl

/-- The entry of source 1, which holds "ab", is gone after the payload "c" with
a line feed; a fresh source has no entry after an empty payload. -/
theorem C14_empty_buffer_erased_witness :
    (ProcessLine (rawLine 1 "c\n".toList)
      (ProcessLine (rawLine 1 "ab".toList) (DBWinReader.new false)).2).2.m_lineBuffers 1 = none ∧
    (ProcessLine (rawLine 2 []) (DBWinReader.new false)).2.m_lineBuffers 2 = none :=
  ⟨(C14_empty_buffer_erased (rawLine 1 "c\n".toList)
      (ProcessLine (rawLine 1 "ab".toList) (DBWinReader.new false)).2).2.1 "c".toList rfl,
   (C14_empty_buffer_erased (rawLine 2 []) (DBWinReader.new false)).2.2 rfl rfl⟩

/-! ## Conservation, attribution and frame -/

theorem concatTexts_append (a b : Lines) :
    concatTexts (a ++ b) = concatTexts a ++ concatTexts b := by
  induction a with
  | nil => rfl
  | cons l a ih =>
    simp only [concatTexts, List.cons_append, List.map_cons, List.foldr_cons] at ih ⊢
    rw [ih, List.append_assoc]

theorem concatTexts_singleton (l : Line) : concatTexts [l] = l.message := by
  simp [concatTexts]

/-- The payload loop neither loses nor adds a byte other than the carriage
returns and line feeds it drops. -/
theorem consume_conserve (o : Line) (p : Str) : ∀ (m : Str) (ls : Lines),
    concatTexts (consume o p m ls).1 ++ (consume o p m ls).2
      = concatTexts ls ++ (m ++ stripCRLF p) := by
  induction p with
  | nil => intro m ls; simp [consume, stripCRLF]
  | cons c p ih =>
    intro m ls
    by_cases h1 : c = '\r'
    · simp only [consume, h1, if_true]
      rw [ih m ls]; simp [stripCRLF]
    · by_cases h2 : c = '\n'
      · subst h2
        simp only [consume, LF_ne_CR, if_true, if_false]
        rw [ih [] _, concatTexts_append, concatTexts_singleton]
        simp [stripCRLF]
      · simp only [consume, h1, h2, if_false]
        rw [ih _ ls]; simp [stripCRLF, h1, h2]

theorem consume_shape (o : Line) (p : Str) : ∀ (m : Str) (ls : Lines),
    (∀ l ∈ ls, ∃ t, l = { o with message := t }) →
    ∀ l ∈ (consume o p m ls).1, ∃ t, l = { o with message := t } := by
  induction p with
  | nil => intro m ls h; exact h
  | cons c p ih =>
    intro m ls h
    by_cases h1 : c = '\r'
    · simp only [consume, h1, if_true]; exact ih m ls h
    · by_cases h2 : c = '\n'
      · subst h2
        simp only [consume, LF_ne_CR, if_true, if_false]
        apply ih
        intro l hl
        rcases List.mem_append.mp hl with hl | hl
        · exact h l hl
        · exact ⟨m, List.mem_singleton.mp hl⟩
      · simp only [consume, h1, h2, if_false]; exact ih _ ls h

/-- Every line that `ProcessLine` emits is its fragment with another text. -/
theorem ProcessLine_shape (line : Line) (s : DBWinReader) :
    ∀ l ∈ (ProcessLine line s).1, ∃ t, l = { line with message := t } := by
  have hc := consume_shape line line.message (pendingOf s line.pid) [] (by simp)
  rw [ProcessLine_eq]
  split
  · exact hc
  · split
    · intro l hl
      rcases List.mem_append.mp hl with hl | hl
      · exact hc l hl
      · exact ⟨_, List.mem_singleton.mp hl⟩
    · exact hc

/-- Every line that the forced-flush loop adds belongs to an evicted id. -/
theorem flushRemoved_pids (reads : CheckReads) (removed : List Pid) :
    ∀ (m : LineBuffers) (ls : Lines),
    ∀ l ∈ (flushRemoved reads removed m ls).1, l ∈ ls ∨ l.pid ∈ removed := by
  induction removed with
  | nil => intro m ls l hl; exact Or.inl hl
  | cons q rest ih =>
    intro m ls l hl
    unfold flushRemoved at hl
    cases e : m.find q with
    | none =>
      rw [e] at hl
      rcases ih m ls l hl with h | h
      · exact Or.inl h
      · exact Or.inr (List.mem_cons_of_mem q h)
    | some text =>
      rw [e] at hl
      simp only at hl
      split at hl
      · rcases ih _ _ l hl with h | h
        · rcases List.mem_append.mp h with h | h
          · exact Or.inl h
          · rw [List.mem_singleton.mp h]
            exact Or.inr (List.mem_cons_self q rest)
        · exact Or.inr (List.mem_cons_of_mem q h)
      · rcases ih _ _ l hl with h | h
        · exact Or.inl h
        · exact Or.inr (List.mem_cons_of_mem q h)

/-- C18: byte conservation. For every reader state, source and payload, with
auto-newline on or off, the texts of the lines that `ProcessLine` emits, one
after the other, followed by the pending text of the source after the call, are
the pending text before the call followed by the payload without its carriage
returns and line feeds. -/
theorem C18_byte_conservation (line : Line) (s : DBWinReader) :
    concatTexts (ProcessLine line s).1 ++ pendingOf (ProcessLine line s).2 line.pid
      = pendingOf s line.pid ++ stripCRLF line.message := by
  have hc := consume_conserve line line.message (pendingOf s line.pid) []
  simp only [concatTexts, List.map_nil, List.foldr_nil, List.nil_append] at hc
  rw [ProcessLine_eq]
  split
  · next hz =>
    rw [pendingOf_erase, ← hc, hz]
    rfl
  · split
    · rw [pendingOf_insert, concatTexts_append, concatTexts_singleton, List.append_nil, ← hc]
      rfl
    · rw [pendingOf_insert, ← hc]
      rfl

/-- C19: attribution. Every line that `ProcessLine` emits carries the time, the
system time, the source id and the origin name of the fragment passed to that
call, whatever was buffered before; only the text differs from the fragment. -/
theorem C19_attribution (line : Line) (s : DBWinReader) (l : Line)
    (hl : l ∈ (ProcessLine line s).1) :
    l.time = line.time ∧ l.systemTime = line.systemTime ∧ l.pid = line.pid ∧
    l.processName = line.processName ∧ l = { line with message := l.message } := by
  obtain ⟨t, ht⟩ := ProcessLine_shape line s l hl
  subst ht
  exact ⟨rfl, rfl, rfl, rfl, rfl⟩

/-- Source 7 has "ab" pending from a fragment stamped 1 and named "old"; the
next fragment, stamped 2 and named "new", completes the line, which carries the
stamps and the name of that second fragment. -/
theorem C19_attribution_witness :
    (⟨2, 20, 7, "new".toList, "abc".toList⟩ : Line)
      ∈ (ProcessLine ⟨2, 20, 7, "new".toList, "c\n".toList⟩
          (ProcessLine ⟨1, 10, 7, "old".toList, "ab".toList⟩ (DBWinReader.new false)).2).1 ∧
    (⟨2, 20, 7, "new".toList, "abc".toList⟩ : Line).time = 2 ∧
    (⟨2, 20, 7, "new".toList, "abc".toList⟩ : Line).processName = "new".toList :=
  ⟨List.mem_singleton.mpr rfl,
   (C19_attribution ⟨2, 20, 7, "new".toList, "c\n".toList⟩
      (ProcessLine ⟨1, 10, 7, "old".toList, "ab".toList⟩ (DBWinReader.new false)).2
      ⟨2, 20, 7, "new".toList, "abc".toList⟩ (List.mem_singleton.mpr rfl)).1,
   (C19_attribution ⟨2, 20, 7, "new".toList, "c\n".toList⟩
      (ProcessLine ⟨1, 10, 7, "old".toList, "ab".toList⟩ (DBWinReader.new false)).2
      ⟨2, 20, 7, "new".toList, "abc".toList⟩ (List.mem_singleton.mpr rfl)).2.2.2.1⟩

/-- C20: frame of `CheckHandleCache`. When the gate is open, every line it
returns belongs to a source id that `Cleanup` reported evicted, a source id with
no entry or with an empty buffer gets no line (evicted or not), and the entry of
every source id that was not evicted is unchanged. -/
theorem C20_check_frame (reads : CheckReads) (s : DBWinReader)
    (hgate : 15 ≤ reads.gate - s.m_handleCacheTime) :
    (∀ l ∈ (CheckHandleCache reads s).1, l.pid ∈ (s.m_handleCache.Cleanup reads.cleanup).1) ∧
    (∀ pid, (s.m_lineBuffers pid = none ∨ s.m_lineBuffers pid = some []) →
      (CheckHandleCache reads s).1.filter (fun l => l.pid = pid) = []) ∧
    (∀ pid, pid ∉ (s.m_handleCache.Cleanup reads.cleanup).1 →
      (CheckHandleCache reads s).2.m_lineBuffers pid = s.m_lineBuffers pid) := by
  have hopen : ¬ (reads.gate - s.m_handleCacheTime < HandleCacheTimeout) := by
    simpa [HandleCacheTimeout] using hgate
  unfold CheckHandleCache
  rw [if_neg hopen]
  refine ⟨fun l hl => ?_, fun pid hp => ?_, fun pid hp => ?_⟩
  · rcases flushRemoved_pids reads _ _ [] l hl with h | h
    · cases h
    · exact h
  · have := flushRemoved_silent reads pid (s.m_handleCache.Cleanup reads.cleanup).1
      s.m_lineBuffers [] (by rcases hp with h | h; exact Or.inl h; exact Or.inr (Or.inl h))
    simpa using this
  · show (flushRemoved reads _ s.m_lineBuffers []).2 pid = s.m_lineBuffers pid
    rw [flushRemoved_buffers, if_neg hp]

/-- Sources 7 and 8 have text pending; the check at second 20 evicts source 7,
last seen at second 1, and not source 8, last seen at second 10: the entry of
source 8 is unchanged and every returned line belongs to an evicted id. -/
theorem C20_check_frame_witness :
    (CheckHandleCache ⟨20, 20, fun _ => 20, fun _ => 5, 20⟩
        { (processAll [rawLine 7 "abc".toList, rawLine 8 "xy".toList]
            (DBWinReader.new false)).2 with
          m_handleCache := HandleCache.Add (HandleCache.Add [] 1 7 42) 10 8 43 }).2.m_lineBuffers 8
      = some "xy".toList ∧
    (∀ l ∈ (CheckHandleCache ⟨20, 20, fun _ => 20, fun _ => 5, 20⟩
        { (processAll [rawLine 7 "abc".toList, rawLine 8 "xy".toList]
            (DBWinReader.new false)).2 with
          m_handleCache := HandleCache.Add (HandleCache.Add [] 1 7 42) 10 8 43 }).1,
      l.pid ∈ (HandleCache.Cleanup (HandleCache.Add (HandleCache.Add [] 1 7 42) 10 8 43) 20).1) :=
  ⟨(C20_check_frame ⟨20, 20, fun _ => 20, fun _ => 5, 20⟩
      { (processAll [rawLine 7 "abc".toList, rawLine 8 "xy".toList]
          (DBWinReader.new false)).2 with
        m_handleCache := HandleCache.Add (HandleCache.Add [] 1 7 42) 10 8 43 }
      (by show (15 : Rat) ≤ 20 - 0
          norm_num)).2.2 8
      (by show 8 ∉ (HandleCache.Cleanup (HandleCache.Add (HandleCache.Add [] 1 7 42) 10 8 43) 20).1
          norm_num [HandleCache.Cleanup, HandleCache.Add, HandleCacheTimeout]),
   (C20_check_frame ⟨20, 20, fun _ => 20, fun _ => 5, 20⟩
      { (processAll [rawLine 7 "abc".toList, rawLine 8 "xy".toList]
          (DBWinReader.new false)).2 with
        m_handleCache := HandleCache.Add (HandleCache.Add [] 1 7 42) 10 8 43 }
      (by show (15 : Rat) ≤ 20 - 0
          norm_num)).1⟩

/-! ## Batches -/

/-- The only member that `ProcessLine` writes is the reassembly map. -/
theorem ProcessLine_state (line : Line) (s : DBWinReader) :
    (ProcessLine line s).2
      = { s with m_lineBuffers := (ProcessLine line s).2.m_lineBuffers } := by
  rw [ProcessLine_eq]
  split
  · rfl
  · split <;> rfl

/-- What `ProcessLine` emits and the map it leaves depend on the reader only
through the auto-newline option and the reassembly map. -/
theorem ProcessLine_congr_full (line : Line) (s t : DBWinReader)
    (ha : s.autoNewLine = t.autoNewLine) (hm : s.m_lineBuffers = t.m_lineBuffers) :
    (ProcessLine line s).1 = (ProcessLine line t).1 ∧
    (ProcessLine line s).2.m_lineBuffers = (ProcessLine line t).2.m_lineBuffers := by
  have hp : pendingOf s line.pid = pendingOf t line.pid := by
    simp only [pendingOf, LineBuffers.find, hm]
  rw [ProcessLine_eq, ProcessLine_eq, hp, ha, hm]
  split
  · exact ⟨rfl, rfl⟩
  · split <;> exact ⟨rfl, rfl⟩

theorem processAll_congr (ls : List Line) : ∀ (s t : DBWinReader),
    s.autoNewLine = t.autoNewLine → s.m_lineBuffers = t.m_lineBuffers →
    (processAll ls s).1 = (processAll ls t).1 ∧
    (processAll ls s).2.m_lineBuffers = (processAll ls t).2.m_lineBuffers := by
  induction ls with
  | nil => intro s t _ hm; exact ⟨rfl, hm⟩
  | cons line rest ih =>
    intro s t ha hm
    obtain ⟨c1, c2⟩ := ProcessLine_congr_full line s t ha hm
    have ha2 : (ProcessLine line s).2.autoNewLine = (ProcessLine line t).2.autoNewLine := by
      rw [ProcessLine_autoNewLine, ProcessLine_autoNewLine, ha]
    obtain ⟨i1, i2⟩ := ih _ _ ha2 c2
    simp only [processAll]
    rw [c1, i1, i2]
    exact ⟨rfl, rfl⟩

/-- The members other than the reassembly map and the handle cache are left
alone by the loop of `ProcessLines`; its lines are those of the successive
`ProcessLine` calls, one per fragment, in the order of the batch. -/
theorem processLoop_processAll (G : Handle → Str) (a : Nat → Time) (ms : DBWinMessages) :
    ∀ (i : Nat) (s : DBWinReader) (resolved : Lines),
    (processLoop G a i ms s resolved).1 = resolved ++ (processAll (ms.map (toLine G)) s).1 ∧
    (processLoop G a i ms s resolved).2.m_lineBuffers
      = (processAll (ms.map (toLine G)) s).2.m_lineBuffers ∧
    (processLoop G a i ms s resolved).2.autoNewLine = s.autoNewLine ∧
    (processLoop G a i ms s resolved).2.m_lines = s.m_lines ∧
    (processLoop G a i ms s resolved).2.m_backBuffer = s.m_backBuffer ∧
    (processLoop G a i ms s resolved).2.m_handleCacheTime = s.m_handleCacheTime := by
  induction ms with
  | nil => intro i s resolved; simp [processLoop, processAll]
  | cons m rest ih =>
    intro i s resolved
    have key : ∀ s1 : DBWinReader, s1.autoNewLine = s.autoNewLine →
        s1.m_lineBuffers = s.m_lineBuffers → s1.m_lines = s.m_lines →
        s1.m_backBuffer = s.m_backBuffer → s1.m_handleCacheTime = s.m_handleCacheTime →
        (processLoop G a (i + 1) rest (ProcessLine (toLine G m) s1).2
            (resolved ++ (ProcessLine (toLine G m) s1).1)).1
          = resolved ++ (processAll (toLine G m :: rest.map (toLine G)) s).1 ∧
        (processLoop G a (i + 1) rest (ProcessLine (toLine G m) s1).2
            (resolved ++ (ProcessLine (toLine G m) s1).1)).2.m_lineBuffers
          = (processAll (toLine G m :: rest.map (toLine G)) s).2.m_lineBuffers ∧
        (processLoop G a (i + 1) rest (ProcessLine (toLine G m) s1).2
            (resolved ++ (ProcessLine (toLine G m) s1).1)).2.autoNewLine = s.autoNewLine ∧
        (processLoop G a (i + 1) rest (ProcessLine (toLine G m) s1).2
            (resolved ++ (ProcessLine (toLine G m) s1).1)).2.m_lines = s.m_lines ∧
        (processLoop G a (i + 1) rest (ProcessLine (toLine G m) s1).2
            (resolved ++ (ProcessLine (toLine G m) s1).1)).2.m_backBuffer = s.m_backBuffer ∧
        (processLoop G a (i + 1) rest (ProcessLine (toLine G m) s1).2
            (resolved ++ (ProcessLine (toLine G m) s1).1)).2.m_handleCacheTime
          = s.m_handleCacheTime := by
      intro s1 h1 h2 h3 h4 h5
      obtain ⟨c1, c2⟩ := ProcessLine_congr_full (toLine G m) s1 s h1 h2
      have ha2 : (ProcessLine (toLine G m) s1).2.autoNewLine
          = (ProcessLine (toLine G m) s).2.autoNewLine := by
        rw [ProcessLine_autoNewLine, ProcessLine_autoNewLine, h1]
      obtain ⟨d1, d2⟩ := processAll_congr (rest.map (toLine G)) _ _ ha2 c2
      obtain ⟨e1, e2, e3, e4, e5, e6⟩ := ih (i + 1) (ProcessLine (toLine G m) s1).2
        (resolved ++ (ProcessLine (toLine G m) s1).1)
      have hst := ProcessLine_state (toLine G m) s1
      refine ⟨?_, ?_, ?_, ?_, ?_, ?_⟩
      · rw [e1, d1, c1]; simp only [processAll, List.append_assoc]
      · rw [e2, d2]; simp only [processAll]
      · rw [e3, ProcessLine_autoNewLine, h1]
      · rw [e4, hst]; exact h3
      · rw [e5, hst]; exact h4
      · rw [e6, hst]; exact h5
    simp only [processLoop, List.map_cons]
    cases hh : m.handle with
    | none => exact key s rfl rfl rfl rfl rfl
    | some h => exact key _ rfl rfl rfl rfl rfl

/-- The lines of the payload loop, origin names left out, do not depend on the
origin name of the fragment. -/
theorem consume_core_indep (o q : Line) (ht : o.time = q.time)
    (hs : o.systemTime = q.systemTime) (hp : o.pid = q.pid) (p : Str) :
    ∀ (m : Str) (ls ks : Lines), ls.map Line.core = ks.map Line.core →
    (consume o p m ls).1.map Line.core = (consume q p m ks).1.map Line.core := by
  induction p with
  | nil => intro m ls ks h; simpa [consume] using h
  | cons c p ih =>
    intro m ls ks h
    by_cases h1 : c = '\r'
    · simp only [consume, h1, if_true]; exact ih m ls ks h
    · by_cases h2 : c = '\n'
      · subst h2
        simp only [consume, LF_ne_CR, if_true, if_false]
        apply ih
        simp [h, Line.core, ht, hs, hp]
      · simp only [consume, h1, h2, if_false]; exact ih _ _ _ h

theorem ProcessLine_core (k l : Line) (hkl : k.core = l.core) (s t : DBWinReader)
    (ha : s.autoNewLine = t.autoNewLine) (hm : s.m_lineBuffers = t.m_lineBuffers) :
    (ProcessLine k s).1.map Line.core = (ProcessLine l t).1.map Line.core ∧
    (ProcessLine k s).2.m_lineBuffers = (ProcessLine l t).2.m_lineBuffers := by
  simp only [Line.core, Prod.mk.injEq] at hkl
  obtain ⟨ht, hs, hp, hmsg⟩ := hkl
  have hpend : pendingOf s k.pid = pendingOf t l.pid := by
    simp only [pendingOf, LineBuffers.find, hm, hp]
  have h2 : (consume k k.message (pendingOf s k.pid) []).2
      = (consume l l.message (pendingOf t l.pid) []).2 := by
    rw [hmsg, hpend]; exact consume_snd_indep _ _ _ _ _ _
  have h1 : (consume k k.message (pendingOf s k.pid) []).1.map Line.core
      = (consume l l.message (pendingOf t l.pid) []).1.map Line.core := by
    rw [hmsg, hpend]; exact consume_core_indep k l ht hs hp _ _ _ _ rfl
  rw [ProcessLine_eq, ProcessLine_eq, h2, ha, hm, hp]
  rw [hp] at h1
  split
  · exact ⟨h1, rfl⟩
  · split
    · refine ⟨?_, rfl⟩
      rw [List.map_append, List.map_append, h1]
      simp [Line.core, ht, hs]
    · exact ⟨h1, rfl⟩

theorem processAll_core (ks : List Line) : ∀ (ls : List Line) (s t : DBWinReader),
    ks.map Line.core = ls.map Line.core →
    s.autoNewLine = t.autoNewLine → s.m_lineBuffers = t.m_lineBuffers →
    (processAll ks s).1.map Line.core = (processAll ls t).1.map Line.core ∧
    (processAll ks s).2.m_lineBuffers = (processAll ls t).2.m_lineBuffers := by
  induction ks with
  | nil =>
    intro ls s t h _ hm
    cases ls with
    | nil => exact ⟨rfl, hm⟩
    | cons l ls => simp at h
  | cons k ks ih =>
    intro ls s t h ha hm
    cases ls with
    | nil => simp at h
    | cons l ls =>
      simp only [List.map_cons, List.cons.injEq] at h
      obtain ⟨c1, c2⟩ := ProcessLine_core k l h.1 s t ha hm
      have ha2 : (ProcessLine k s).2.autoNewLine = (ProcessLine l t).2.autoNewLine := by
        rw [ProcessLine_autoNewLine, ProcessLine_autoNewLine, ha]
      obtain ⟨i1, i2⟩ := ih ls _ _ h.2 ha2 c2
      simp only [processAll, List.map_append]
      rw [c1, i1, i2]
      exact ⟨rfl, rfl⟩

theorem toLine_core (G : Handle → Str) (ms : DBWinMessages) :
    (ms.map (toLine G)).map Line.core = ms.map DBWinMessage.core := by
  induction ms with
  | nil => rfl
  | cons m ms ih =>
    simp only [List.map_cons, ih]
    rfl

/-- C13: a resolution failure is not fatal. In every batch each fragment is
passed to `ProcessLine`, in the order of the batch, after the lines of the
check; a fragment whose handle is null is passed with an empty origin name; and
a batch with the same fragments but other handles (all valid, for instance)
emits lines with the same times, source ids and texts in the same order, and
leaves the same reassembly map: only origin names differ. -/
theorem C13_null_handle_nonfatal (G H : Handle → Str) (reads : BatchReads) (a : Nat → Time)
    (ms ks : DBWinMessages) (s : DBWinReader)
    (hsame : ks.map DBWinMessage.core = ms.map DBWinMessage.core) :
    (ProcessLines G reads ms s).1
      = (CheckHandleCache reads.check s).1 ++
        (processAll (ms.map (toLine G)) (CheckHandleCache reads.check s).2).1 ∧
    (∀ m ∈ ms, m.handle = none →
      toLine G m = ⟨m.time, m.systemTime, m.pid, [], m.message⟩) ∧
    (ProcessLines H ⟨reads.check, a⟩ ks s).1.map Line.core
      = (ProcessLines G reads ms s).1.map Line.core ∧
    (ProcessLines H ⟨reads.check, a⟩ ks s).2.m_lineBuffers
      = (ProcessLines G reads ms s).2.m_lineBuffers := by
  obtain ⟨p1, p2, _⟩ := processLoop_processAll G reads.addTime ms 0
    (CheckHandleCache reads.check s).2 (CheckHandleCache reads.check s).1
  obtain ⟨q1, q2, _⟩ := processLoop_processAll H a ks 0
    (CheckHandleCache reads.check s).2 (CheckHandleCache reads.check s).1
  obtain ⟨c1, c2⟩ := processAll_core (ks.map (toLine H)) (ms.map (toLine G))
    (CheckHandleCache reads.check s).2 (CheckHandleCache reads.check s).2
    (by rw [toLine_core, toLine_core, hsame]) rfl rfl
  refine ⟨p1, ?_, ?_, ?_⟩
  · intro m _ hm
    simp only [toLine, hm]
  · show (processLoop H a 0 ks _ _).1.map Line.core = (processLoop G reads.addTime 0 ms _ _).1.map
      Line.core
    rw [p1, q1, List.map_append, List.map_append, c1]
  · show (processLoop H a 0 ks _ _).2.m_lineBuffers
      = (processLoop G reads.addTime 0 ms _ _).2.m_lineBuffers
    rw [p2, q2, c2]

/-- The batch of "ab" with a line feed and "cd" from source 1, once with null
handles and once with the valid handle 42 that resolves to "proc": the same
line "ab" either way, apart from the origin name. -/
theorem C13_null_handle_nonfatal_witness :
    (ProcessLines (fun _ => "proc".toList) ⟨⟨0, 0, fun _ => 0, fun _ => 0, 0⟩, fun _ => 3⟩
        [⟨1, 5, 1, some 42, "ab\n".toList⟩, ⟨2, 6, 1, some 42, "cd".toList⟩]
        (DBWinReader.new false)).1.map Line.core
      = (ProcessLines (fun _ => "proc".toList) ⟨⟨0, 0, fun _ => 0, fun _ => 0, 0⟩, fun _ => 0⟩
        [⟨1, 5, 1, none, "ab\n".toList⟩, ⟨2, 6, 1, none, "cd".toList⟩]
        (DBWinReader.new false)).1.map Line.core :=
  (C13_null_handle_nonfatal (fun _ => "proc".toList) (fun _ => "proc".toList)
    ⟨⟨0, 0, fun _ => 0, fun _ => 0, 0⟩, fun _ => 0⟩ (fun _ => 3)
    [⟨1, 5, 1, none, "ab\n".toList⟩, ⟨2, 6, 1, none, "cd".toList⟩]
    [⟨1, 5, 1, some 42, "ab\n".toList⟩, ⟨2, 6, 1, some 42, "cd".toList⟩]
    (DBWinReader.new false) rfl).2.2.1

theorem addLines_eq (ms : DBWinMessages) : ∀ s : DBWinReader,
    addLines ms s = { s with m_lines := s.m_lines ++ ms } := by
  induction ms with
  | nil => intro s; simp [addLines]
  | cons m ms ih =>
    intro s
    have h := ih (AddLine m s)
    simp only [addLines, List.foldl_cons] at h ⊢
    rw [h]
    simp [AddLine]

theorem CheckHandleCache_closed (reads : CheckReads) (s : DBWinReader)
    (h : reads.gate - s.m_handleCacheTime < HandleCacheTimeout) :
    CheckHandleCache reads s = ([], s) := by
  unfold CheckHandleCache
  rw [if_pos h]

/-- The queues and the auto-newline option do not matter to `CheckHandleCache`. -/
theorem CheckHandleCache_congr (reads : CheckReads) (s t : DBWinReader)
    (h1 : s.m_lineBuffers = t.m_lineBuffers) (h2 : s.m_handleCache = t.m_handleCache)
    (h3 : s.m_handleCacheTime = t.m_handleCacheTime) :
    (CheckHandleCache reads s).1 = (CheckHandleCache reads t).1 ∧
    (CheckHandleCache reads s).2.m_lineBuffers = (CheckHandleCache reads t).2.m_lineBuffers := by
  unfold CheckHandleCache
  rw [h1, h2, h3]
  split
  · exact ⟨rfl, h1⟩
  · exact ⟨rfl, rfl⟩

/-- The queues and the auto-newline option are left alone by `CheckHandleCache`. -/
theorem CheckHandleCache_frame (reads : CheckReads) (s : DBWinReader) :
    (CheckHandleCache reads s).2.autoNewLine = s.autoNewLine ∧
    (CheckHandleCache reads s).2.m_lines = s.m_lines ∧
    (CheckHandleCache reads s).2.m_backBuffer = s.m_backBuffer := by
  unfold CheckHandleCache
  split <;> exact ⟨rfl, rfl, rfl⟩

/-- One `GetLines` call: the queue is emptied into the back buffer, and the
result is the lines of the check followed by the lines of the queued fragments,
each passed once to `ProcessLine`, in the order of the queue. -/
theorem GetLines_spec (G : Handle → Str) (reads : BatchReads) (s : DBWinReader) :
    (GetLines G reads s).2.m_lines = [] ∧
    (GetLines G reads s).2.m_backBuffer = s.m_lines ∧
    (GetLines G reads s).1
      = (CheckHandleCache reads.check s).1 ++
        (processAll (s.m_lines.map (toLine G)) (CheckHandleCache reads.check s).2).1 := by
  obtain ⟨c1, c2⟩ := CheckHandleCache_congr reads.check
    { s with m_lines := [], m_backBuffer := s.m_lines } s rfl rfl rfl
  obtain ⟨f1, f2, f3⟩ := CheckHandleCache_frame reads.check
    { s with m_lines := [], m_backBuffer := s.m_lines }
  obtain ⟨g1, _, _⟩ := CheckHandleCache_frame reads.check s
  obtain ⟨p1, _, _, p4, p5, _⟩ := processLoop_processAll G reads.addTime s.m_lines 0
    (CheckHandleCache reads.check { s with m_lines := [], m_backBuffer := s.m_lines }).2
    (CheckHandleCache reads.check { s with m_lines := [], m_backBuffer := s.m_lines }).1
  obtain ⟨d1, _⟩ := processAll_congr (s.m_lines.map (toLine G))
    (CheckHandleCache reads.check { s with m_lines := [], m_backBuffer := s.m_lines }).2
    (CheckHandleCache reads.check s).2 (by rw [f1, g1]) c2
  refine ⟨?_, ?_, ?_⟩
  · show (processLoop G reads.addTime 0 s.m_lines _ _).2.m_lines = []
    rw [p4, f2]
  · show (processLoop G reads.addTime 0 s.m_lines _ _).2.m_backBuffer = s.m_lines
    rw [p5, f3]
  · show (processLoop G reads.addTime 0 s.m_lines _ _).1 = _
    rw [p1, c1, d1]

/-- Two `GetLines` calls with `AddLine` calls in between, over the helpers
`addLines`, `toLine` and `processAll`. -/
theorem GetLines_after_adds (G : Handle → Str) (reads0 reads : BatchReads) (s0 : DBWinReader)
    (ms : DBWinMessages) :
    (GetLines G reads0 s0).2.m_lines = [] ∧
    (GetLines G reads (addLines ms (GetLines G reads0 s0).2)).2.m_lines = [] ∧
    (GetLines G reads (addLines ms (GetLines G reads0 s0).2)).2.m_backBuffer = ms ∧
    (GetLines G reads (addLines ms (GetLines G reads0 s0).2)).1
      = (CheckHandleCache reads.check (GetLines G reads0 s0).2).1 ++
        (processAll (ms.map (toLine G))
          (CheckHandleCache reads.check (GetLines G reads0 s0).2).2).1 := by
  obtain ⟨g1, _, _⟩ := GetLines_spec G reads0 s0
  obtain ⟨h1, h2, h3⟩ := GetLines_spec G reads (addLines ms (GetLines G reads0 s0).2)
  have hq : (addLines ms (GetLines G reads0 s0).2).m_lines = ms := by
    rw [addLines_eq]; simp [g1]
  have hadd := addLines_eq ms (GetLines G reads0 s0).2
  obtain ⟨c1, c2⟩ := CheckHandleCache_congr reads.check
    (addLines ms (GetLines G reads0 s0).2) (GetLines G reads0 s0).2
    (by rw [hadd]) (by rw [hadd]) (by rw [hadd])
  obtain ⟨f1, _, _⟩ := CheckHandleCache_frame reads.check (addLines ms (GetLines G reads0 s0).2)
  obtain ⟨f2, _, _⟩ := CheckHandleCache_frame reads.check (GetLines G reads0 s0).2
  obtain ⟨d1, _⟩ := processAll_congr (ms.map (toLine G))
    (CheckHandleCache reads.check (addLines ms (GetLines G reads0 s0).2)).2
    (CheckHandleCache reads.check (GetLines G reads0 s0).2).2
    (by rw [f1, f2, hadd]) c2
  refine ⟨g1, h1, ?_, ?_⟩
  · rw [h2, hq]
  · rw [h3, hq, c1, d1]

/-- Folding `ProcessLine` over explicit line records is `processAll`. -/
theorem foldl_ProcessLine (ls : List Line) : ∀ (acc : Lines) (st : DBWinReader),
    (ls.foldl (fun (r : Lines × DBWinReader) (l : Line) =>
        (r.1 ++ (ProcessLine l r.2).1, (ProcessLine l r.2).2)) (acc, st)).1
      = acc ++ (processAll ls st).1 := by
  induction ls with
  | nil => intro acc st; simp [processAll]
  | cons l ls ih =>
    intro acc st
    simp only [List.foldl_cons, processAll]
    rw [ih, List.append_assoc]

theorem map_toLine (G : Handle → Str) (ms : DBWinMessages) :
    ms.map (toLine G)
      = ms.map (fun m => (⟨m.time, m.systemTime, m.pid,
          (match m.handle with
            | some h => G h
            | none => []), m.message⟩ : Line)) := rfl

/-- The outcome of `CheckHandleCache` with an open gate, `Cleanup` given. -/
theorem CheckHandleCache_open (r : CheckReads) (s : DBWinReader) (removed : List Pid)
    (kept : HandleCache) (hopen : ¬ (r.gate - s.m_handleCacheTime < HandleCacheTimeout))
    (hc : s.m_handleCache.Cleanup r.cleanup = (removed, kept)) :
    CheckHandleCache r s
      = ((flushRemoved r removed s.m_lineBuffers []).1,
         { s with m_lineBuffers := (flushRemoved r removed s.m_lineBuffers []).2,
                  m_handleCache := kept, m_handleCacheTime := r.stamp }) := by
  unfold CheckHandleCache
  rw [if_neg hopen, hc]

/-- C16: arrival order and exactly-once drain. After a `GetLines` call the
queue of pending fragments is empty; the fragments `ms` then queued by
successive `AddLine` calls are exactly what the next `GetLines` call processes:
it leaves the queue empty again, holds `ms` in its back buffer, and returns the
forced-flush lines of the check first, followed by the lines that successive
`ProcessLine` calls emit, one call per fragment of `ms` in the order they were
added, each call on the line that carries the time, the system time, the
process id and the payload of its fragment, under the origin name that the
resolver gives for its handle (empty for a null handle). -/
theorem C16_arrival_order (G : Handle → Str) (reads0 reads : BatchReads) (s0 : DBWinReader)
    (ms : DBWinMessages) :
    (GetLines G reads0 s0).2.m_lines = [] ∧
    (GetLines G reads
      (ms.foldl (fun st m => AddLine m st) (GetLines G reads0 s0).2)).2.m_lines = [] ∧
    (GetLines G reads
      (ms.foldl (fun st m => AddLine m st) (GetLines G reads0 s0).2)).2.m_backBuffer = ms ∧
    (GetLines G reads (ms.foldl (fun st m => AddLine m st) (GetLines G reads0 s0).2)).1
      = (CheckHandleCache reads.check (GetLines G reads0 s0).2).1 ++
        ((ms.map (fun m => (⟨m.time, m.systemTime, m.pid,
            (match m.handle with
              | some h => G h
              | none => []), m.message⟩ : Line))).foldl
          (fun (r : Lines × DBWinReader) (l : Line) =>
            (r.1 ++ (ProcessLine l r.2).1, (ProcessLine l r.2).2))
          ([], (CheckHandleCache reads.check (GetLines G reads0 s0).2).2)).1 := by
  obtain ⟨h1, h2, h3, h4⟩ := GetLines_after_adds G reads0 reads s0 ms
  refine ⟨h1, h2, h3, ?_⟩
  rw [foldl_ProcessLine, List.nil_append, ← map_toLine]
  exact h4

/-- A first `GetLines` takes "zz" from process 9, with a handle, cached at
second 1. Then "hello " and "world" with a line feed arrive from process 1
without handle, and "x", a line feed and "y" from process 2 with a handle. The
next `GetLines`, at second 40, returns the forced-flush line of process 9
first, then the line "hello world" of process 1 and the line "x" of process 2,
in that order. -/
theorem C16_arrival_order_witness :
    (GetLines (fun _ => "proc".toList) ⟨⟨40, 40, fun _ => 40, fun _ => 50, 41⟩, fun _ => 40⟩
      ([⟨30, 6, 1, none, "hello ".toList⟩, ⟨31, 7, 1, none, "world\n".toList⟩,
        ⟨32, 8, 2, some 43, "x\ny".toList⟩].foldl (fun st m => AddLine m st)
        (GetLines (fun _ => "proc".toList) ⟨⟨0, 0, fun _ => 0, fun _ => 0, 0⟩, fun _ => 1⟩
          (AddLine ⟨1, 5, 9, some 42, "zz".toList⟩ (DBWinReader.new false))).2)).1
      = [⟨40, 50, 9, "<flush>".toList, "zz".toList⟩,
         ⟨31, 7, 1, [], "hello world".toList⟩,
         ⟨32, 8, 2, "proc".toList, "x".toList⟩] := by
  have hclosed : CheckHandleCache ⟨0, 0, fun _ => 0, fun _ => 0, 0⟩
      { DBWinReader.new false with m_backBuffer := [⟨1, 5, 9, some 42, "zz".toList⟩] }
      = ([], { DBWinReader.new false with
               m_backBuffer := [⟨1, 5, 9, some 42, "zz".toList⟩] }) :=
    CheckHandleCache_closed _ _ (by
      show (0 : Rat) - 0 < HandleCacheTimeout
      norm_num [HandleCacheTimeout])
  have hS1 : (GetLines (fun _ => "proc".toList)
      ⟨⟨0, 0, fun _ => 0, fun _ => 0, 0⟩, fun _ => 1⟩
      (AddLine ⟨1, 5, 9, some 42, "zz".toList⟩ (DBWinReader.new false))).2
      = (processLoop (fun _ => "proc".toList) (fun _ => 1) 0 [⟨1, 5, 9, some 42, "zz".toList⟩]
          { DBWinReader.new false with m_backBuffer := [⟨1, 5, 9, some 42, "zz".toList⟩] }
          []).2 := by
    show (processLoop (fun _ => "proc".toList) (fun _ => 1) 0
        [⟨1, 5, 9, some 42, "zz".toList⟩]
        (CheckHandleCache ⟨0, 0, fun _ => 0, fun _ => 0, 0⟩
          { DBWinReader.new false with
            m_backBuffer := [⟨1, 5, 9, some 42, "zz".toList⟩] }).2
        (CheckHandleCache ⟨0, 0, fun _ => 0, fun _ => 0, 0⟩
          { DBWinReader.new false with
            m_backBuffer := [⟨1, 5, 9, some 42, "zz".toList⟩] }).1).2 = _
    rw [hclosed]
  have hopen := CheckHandleCache_open ⟨40, 40, fun _ => 40, fun _ => 50, 41⟩
    (processLoop (fun _ => "proc".toList) (fun _ => 1) 0 [⟨1, 5, 9, some 42, "zz".toList⟩]
      { DBWinReader.new false with m_backBuffer := [⟨1, 5, 9, some 42, "zz".toList⟩] } []).2
    [9] []
    (by show ¬ ((40 : Rat) - 0 < HandleCacheTimeout)
        norm_num [HandleCacheTimeout])
    (by show HandleCache.Cleanup [⟨9, 42, 1⟩] 40 = ([9], [])
        norm_num [HandleCache.Cleanup, HandleCacheTimeout])
  rw [(C16_arrival_order (fun _ => "proc".toList)
    ⟨⟨0, 0, fun _ => 0, fun _ => 0, 0⟩, fun _ => 1⟩
    ⟨⟨40, 40, fun _ => 40, fun _ => 50, 41⟩, fun _ => 40⟩
    (AddLine ⟨1, 5, 9, some 42, "zz".toList⟩ (DBWinReader.new false))
    [⟨30, 6, 1, none, "hello ".toList⟩, ⟨31, 7, 1, none, "world\n".toList⟩,
      ⟨32, 8, 2, some 43, "x\ny".toList⟩]).2.2.2, hS1, hopen]
  rfl

/-! ## Sources held in the handle cache -/

theorem Add_holds (c : HandleCache) (t : Time) (q : Pid) (h : Handle) :
    ∃ e ∈ c.Add t q h, e.sourceId = q :=
  ⟨⟨q, h, t⟩, List.mem_cons_self _ _, rfl⟩

theorem Add_keeps (c : HandleCache) (t : Time) (q : Pid) (h : Handle) (pid : Pid)
    (hc : ∃ e ∈ c, e.sourceId = pid) : ∃ e ∈ c.Add t q h, e.sourceId = pid := by
  by_cases hq : pid = q
  · subst hq; exact Add_holds c t pid h
  · obtain ⟨e, he, hid⟩ := hc
    refine ⟨e, List.mem_cons_of_mem _ (List.mem_filter.mpr ⟨he, ?_⟩), hid⟩
    simp [hid, hq]

theorem ProcessLine_cached (N : Pid → Prop) (line : Line) (s : DBWinReader)
    (hinv : CachedOutside N s)
    (hline : N line.pid ∨ ∃ e ∈ s.m_handleCache, e.sourceId = line.pid) :
    CachedOutside N (ProcessLine line s).2 := by
  intro pid b hb hn
  have hcache : (ProcessLine line s).2.m_handleCache = s.m_handleCache := by
    rw [ProcessLine_state]
  rw [hcache]
  by_cases hp : pid = line.pid
  · subst hp
    rcases hline with h | h
    · exact absurd h hn
    · exact h
  · rw [ProcessLine_other line s pid hp] at hb
    exact hinv pid b hb hn

theorem CheckHandleCache_cached (N : Pid → Prop) (reads : CheckReads) (s : DBWinReader)
    (hinv : CachedOutside N s) : CachedOutside N (CheckHandleCache reads s).2 := by
  unfold CheckHandleCache
  split
  · exact hinv
  · intro pid b hb hn
    have hb2 : (flushRemoved reads (s.m_handleCache.Cleanup reads.cleanup).1
        s.m_lineBuffers []).2 pid = some b := hb
    rw [flushRemoved_buffers] at hb2
    split at hb2
    · cases hb2
    · next hnot =>
      obtain ⟨e, he, hid⟩ := hinv pid b hb2 hn
      refine ⟨e, ?_, hid⟩
      show e ∈ (s.m_handleCache.Cleanup reads.cleanup).2
      simp only [HandleCache.Cleanup, List.mem_filter, Bool.not_eq_true', decide_eq_false_iff_not]
      refine ⟨he, fun hexp => hnot ?_⟩
      simp only [HandleCache.Cleanup, List.mem_map, List.mem_filter, decide_eq_true_eq]
      exact ⟨e, ⟨he, hexp⟩, hid⟩

theorem processLoop_cached (N : Pid → Prop) (G : Handle → Str) (a : Nat → Time)
    (ms : DBWinMessages) : ∀ (i : Nat) (s : DBWinReader) (resolved : Lines),
    CachedOutside N s → (∀ m ∈ ms, m.handle = none → N m.pid) →
    CachedOutside N (processLoop G a i ms s resolved).2 := by
  induction ms with
  | nil => intro i s resolved hinv _; exact hinv
  | cons m rest ih =>
    intro i s resolved hinv hN
    have hrest : ∀ k ∈ rest, k.handle = none → N k.pid :=
      fun k hk => hN k (List.mem_cons_of_mem m hk)
    simp only [processLoop]
    cases hh : m.handle with
    | none =>
      exact ih _ _ _ (ProcessLine_cached N _ s hinv
        (Or.inl (hN m (List.mem_cons_self m rest) hh))) hrest
    | some h =>
      apply ih _ _ _ _ hrest
      apply ProcessLine_cached N
      · intro pid b hb hn
        exact Add_keeps _ _ _ _ pid (hinv pid b hb hn)
      · exact Or.inr (Add_holds _ _ _ _)

/-- A source with text pending and an expired entry in the handle cache is
flushed by the next check whose gate is open. -/
theorem expired_flushed (r : CheckReads) (s : DBWinReader) (pid : Pid) (b : Str)
    (e : CacheEntry) (hgate : 15 ≤ r.gate - s.m_handleCacheTime)
    (hb : s.m_lineBuffers pid = some b) (hne : b ≠ [])
    (he : e ∈ s.m_handleCache) (hid : e.sourceId = pid) (hexp : 15 < r.cleanup - e.lastSeen) :
    (CheckHandleCache r s).1.filter (fun l => l.pid = pid)
      = [⟨r.flushTime pid, r.flushSystemTime pid, pid, "<flush>".toList, b⟩] ∧
    (CheckHandleCache r s).2.m_lineBuffers pid = none := by
  have hopen : ¬ (r.gate - s.m_handleCacheTime < HandleCacheTimeout) := by
    simpa [HandleCacheTimeout] using hgate
  have hev : pid ∈ (s.m_handleCache.Cleanup r.cleanup).1 := by
    simp only [HandleCache.Cleanup, List.mem_map, List.mem_filter, decide_eq_true_eq]
    exact ⟨e, ⟨he, by simpa [HandleCacheTimeout] using hexp⟩, hid⟩
  unfold CheckHandleCache
  rw [if_neg hopen]
  constructor
  · exact flushRemoved_once r pid b hne _ _ [] hev hb
  · show (flushRemoved r _ s.m_lineBuffers []).2 pid = none
    rw [flushRemoved_buffers, if_pos hev]

/-- With an empty handle cache no check emits a line or touches the map. -/
theorem CheckHandleCache_empty_cache (reads : CheckReads) (s : DBWinReader)
    (h : s.m_handleCache = []) :
    (CheckHandleCache reads s).1 = [] ∧
    (CheckHandleCache reads s).2.m_lineBuffers = s.m_lineBuffers := by
  unfold CheckHandleCache
  split
  · exact ⟨rfl, rfl⟩
  · simp [h, HandleCache.Cleanup, flushRemoved]

/-- The handle cache after a check holds no entry that it did not hold before. -/
theorem CheckHandleCache_cache_subset (reads : CheckReads) (s : DBWinReader) (e : CacheEntry)
    (he : e ∈ (CheckHandleCache reads s).2.m_handleCache) : e ∈ s.m_handleCache := by
  unfold CheckHandleCache at he
  split at he
  · exact he
  · have he2 : e ∈ (s.m_handleCache.Cleanup reads.cleanup).2 := he
    simp only [HandleCache.Cleanup, List.mem_filter] at he2
    exact he2.1

/-- The loop of `ProcessLines` puts no entry into the handle cache for a source
all of whose fragments in the batch have a null handle. -/
theorem processLoop_no_new_entry (G : Handle → Str) (a : Nat → Time) (pid : Pid)
    (ms : DBWinMessages) : ∀ (i : Nat) (s : DBWinReader) (resolved : Lines),
    (∀ m ∈ ms, m.pid = pid → m.handle = none) →
    ∀ e ∈ (processLoop G a i ms s resolved).2.m_handleCache, e.sourceId = pid →
      e ∈ s.m_handleCache := by
  induction ms with
  | nil => intro i s resolved _ e he _; exact he
  | cons m rest ih =>
    intro i s resolved hnull e he hid
    have hrest : ∀ k ∈ rest, k.pid = pid → k.handle = none :=
      fun k hk => hnull k (List.mem_cons_of_mem m hk)
    simp only [processLoop] at he
    cases hh : m.handle with
    | none =>
      rw [hh] at he
      have h1 := ih _ _ _ hrest e he hid
      rw [ProcessLine_state] at h1
      exact h1
    | some h =>
      rw [hh] at he
      have h1 := ih _ _ _ hrest e he hid
      rw [ProcessLine_state] at h1
      have h2 : e ∈ s.m_handleCache.Add (a i) m.pid h := h1
      have hne : m.pid ≠ pid := by
        intro hp
        have := hnull m (List.mem_cons_self m rest) hp
        rw [hh] at this
        cases this
      rcases List.mem_cons.mp h2 with h3 | h3
      · rw [h3] at hid
        exact absurd hid hne
      · exact (List.mem_filter.mp h3).1

/-- A source without entry in the handle cache gets no line from a check, and
its entry in the reassembly map is left as it is. -/
theorem not_cached_silent (r : CheckReads) (s : DBWinReader) (pid : Pid)
    (h : ∀ e ∈ s.m_handleCache, e.sourceId ≠ pid) :
    (CheckHandleCache r s).1.filter (fun l => l.pid = pid) = [] ∧
    (CheckHandleCache r s).2.m_lineBuffers pid = s.m_lineBuffers pid := by
  have hev : pid ∉ (s.m_handleCache.Cleanup r.cleanup).1 := by
    simp only [HandleCache.Cleanup, List.mem_map, List.mem_filter, not_exists, not_and]
    intro e he hid
    exact h e he.1 hid
  unfold CheckHandleCache
  split
  · exact ⟨rfl, rfl⟩
  · constructor
    · have := flushRemoved_silent r pid (s.m_handleCache.Cleanup r.cleanup).1
        s.m_lineBuffers [] (Or.inr (Or.inr hev))
      simpa using this
    · show (flushRemoved r _ s.m_lineBuffers []).2 pid = s.m_lineBuffers pid
      rw [flushRemoved_buffers, if_neg hev]

/-- C15 (amended): a silent source whose fragments came with a handle is not
left pending forever. If before a `ProcessLines` batch every source with an
entry in the reassembly map, the sources in `N` apart, is held in the handle
cache, and every fragment of the batch with a null handle comes from a source
in `N`, then the same holds after the batch; and in the state after the batch,
a source with a non-empty pending buffer whose cache entry is older than 15
seconds at the next check with an open gate gets exactly one forced-flush line
with that buffer, and its entry is erased. A source whose fragments in the
batch all have a null handle is not put into the handle cache by the batch:
every cache entry of that source after the batch was in the cache before it;
and a source without cache entry gets no line from a later check, which leaves
its pending buffer as it is. -/
theorem C15_cached_sources_flushed (N : Pid → Prop) (G : Handle → Str) (reads : BatchReads)
    (ms : DBWinMessages) (s : DBWinReader)
    (hinv : CachedOutside N s) (hN : ∀ m ∈ ms, m.handle = none → N m.pid) :
    CachedOutside N (ProcessLines G reads ms s).2 ∧
    (∀ (r : CheckReads) (pid : Pid) (b : Str) (e : CacheEntry),
      15 ≤ r.gate - (ProcessLines G reads ms s).2.m_handleCacheTime →
      (ProcessLines G reads ms s).2.m_lineBuffers pid = some b → b ≠ [] →
      e ∈ (ProcessLines G reads ms s).2.m_handleCache → e.sourceId = pid →
      15 < r.cleanup - e.lastSeen →
      (CheckHandleCache r (ProcessLines G reads ms s).2).1.filter (fun l => l.pid = pid)
        = [⟨r.flushTime pid, r.flushSystemTime pid, pid, "<flush>".toList, b⟩] ∧
      (CheckHandleCache r (ProcessLines G reads ms s).2).2.m_lineBuffers pid = none) ∧
    (∀ pid : Pid, (∀ m ∈ ms, m.pid = pid → m.handle = none) →
      ∀ e ∈ (ProcessLines G reads ms s).2.m_handleCache, e.sourceId = pid →
        e ∈ s.m_handleCache) ∧
    (∀ (r : CheckReads) (pid : Pid),
      (∀ e ∈ (ProcessLines G reads ms s).2.m_handleCache, e.sourceId ≠ pid) →
      (CheckHandleCache r (ProcessLines G reads ms s).2).1.filter (fun l => l.pid = pid) = [] ∧
      (CheckHandleCache r (ProcessLines G reads ms s).2).2.m_lineBuffers pid
        = (ProcessLines G reads ms s).2.m_lineBuffers pid) :=
  ⟨processLoop_cached N G reads.addTime ms 0 _ _
      (CheckHandleCache_cached N reads.check s hinv) hN,
   fun r pid b e hgate hb hne he hid hexp =>
     expired_flushed r _ pid b e hgate hb hne he hid hexp,
   fun pid hnull e he hid =>
     CheckHandleCache_cache_subset reads.check s e
       (processLoop_no_new_entry G reads.addTime pid ms 0 _ _ hnull e he hid),
   fun r pid h => not_cached_silent r _ pid h⟩

/-- A fresh reader gets the batch of "abc" from source 1 with the valid handle
42, cached at second 1, and "xyz" from source 2 with a null handle. Source 1 is
held in the handle cache and the check at second 20 emits its forced-flush line
and erases its entry; source 2 has no cache entry, gets no line from that check
and keeps "xyz" pending. -/
theorem C15_cached_sources_flushed_witness :
    CachedOutside (fun p => p = 2)
      (ProcessLines (fun _ => "proc".toList) ⟨⟨0, 0, fun _ => 0, fun _ => 0, 0⟩, fun _ => 1⟩
        [⟨1, 5, 1, some 42, "abc".toList⟩, ⟨2, 6, 2, none, "xyz".toList⟩]
        (DBWinReader.new false)).2 ∧
    ((CheckHandleCache ⟨20, 20, fun _ => 20, fun _ => 5, 20⟩
      (ProcessLines (fun _ => "proc".toList) ⟨⟨0, 0, fun _ => 0, fun _ => 0, 0⟩, fun _ => 1⟩
        [⟨1, 5, 1, some 42, "abc".toList⟩, ⟨2, 6, 2, none, "xyz".toList⟩]
        (DBWinReader.new false)).2).1.filter (fun l => l.pid = 1)
      = [⟨20, 5, 1, "<flush>".toList, "abc".toList⟩] ∧
     (CheckHandleCache ⟨20, 20, fun _ => 20, fun _ => 5, 20⟩
      (ProcessLines (fun _ => "proc".toList) ⟨⟨0, 0, fun _ => 0, fun _ => 0, 0⟩, fun _ => 1⟩
        [⟨1, 5, 1, some 42, "abc".toList⟩, ⟨2, 6, 2, none, "xyz".toList⟩]
        (DBWinReader.new false)).2).2.m_lineBuffers 1 = none) ∧
    (∀ e ∈ (ProcessLines (fun _ => "proc".toList)
        ⟨⟨0, 0, fun _ => 0, fun _ => 0, 0⟩, fun _ => 1⟩
        [⟨1, 5, 1, some 42, "abc".toList⟩, ⟨2, 6, 2, none, "xyz".toList⟩]
        (DBWinReader.new false)).2.m_handleCache, e.sourceId ≠ 2) ∧
    ((CheckHandleCache ⟨20, 20, fun _ => 20, fun _ => 5, 20⟩
      (ProcessLines (fun _ => "proc".toList) ⟨⟨0, 0, fun _ => 0, fun _ => 0, 0⟩, fun _ => 1⟩
        [⟨1, 5, 1, some 42, "abc".toList⟩, ⟨2, 6, 2, none, "xyz".toList⟩]
        (DBWinReader.new false)).2).1.filter (fun l => l.pid = 2) = [] ∧
     (CheckHandleCache ⟨20, 20, fun _ => 20, fun _ => 5, 20⟩
      (ProcessLines (fun _ => "proc".toList) ⟨⟨0, 0, fun _ => 0, fun _ => 0, 0⟩, fun _ => 1⟩
        [⟨1, 5, 1, some 42, "abc".toList⟩, ⟨2, 6, 2, none, "xyz".toList⟩]
        (DBWinReader.new false)).2).2.m_lineBuffers 2 = some "xyz".toList) := by
  have hinv : CachedOutside (fun p => p = 2) (DBWinReader.new false) :=
    fun _ _ hb => (nomatch hb)
  have hN : ∀ m ∈ ([⟨1, 5, 1, some 42, "abc".toList⟩, ⟨2, 6, 2, none, "xyz".toList⟩] :
      DBWinMessages), m.handle = none → (fun p => p = 2) m.pid := by
    intro m hm hh
    rcases List.mem_cons.mp hm with h1 | h1
    · rw [h1] at hh; cases hh
    · rw [List.mem_singleton.mp h1]
  have hnull : ∀ m ∈ ([⟨1, 5, 1, some 42, "abc".toList⟩, ⟨2, 6, 2, none, "xyz".toList⟩] :
      DBWinMessages), m.pid = 2 → m.handle = none := by
    intro m hm hp
    rcases List.mem_cons.mp hm with h1 | h1
    · rw [h1] at hp; cases hp
    · rw [List.mem_singleton.mp h1]
  have h := C15_cached_sources_flushed (fun p => p = 2) (fun _ => "proc".toList)
    ⟨⟨0, 0, fun _ => 0, fun _ => 0, 0⟩, fun _ => 1⟩
    [⟨1, 5, 1, some 42, "abc".toList⟩, ⟨2, 6, 2, none, "xyz".toList⟩]
    (DBWinReader.new false) hinv hN
  have hclosed : CheckHandleCache ⟨0, 0, fun _ => 0, fun _ => 0, 0⟩ (DBWinReader.new false)
      = ([], DBWinReader.new false) :=
    CheckHandleCache_closed _ _ (by
      show (0 : Rat) - 0 < HandleCacheTimeout
      norm_num [HandleCacheTimeout])
  have hs : ProcessLines (fun _ => "proc".toList)
      ⟨⟨0, 0, fun _ => 0, fun _ => 0, 0⟩, fun _ => 1⟩
      [⟨1, 5, 1, some 42, "abc".toList⟩, ⟨2, 6, 2, none, "xyz".toList⟩] (DBWinReader.new false)
      = processLoop (fun _ => "proc".toList) (fun _ => 1) 0
          [⟨1, 5, 1, some 42, "abc".toList⟩, ⟨2, 6, 2, none, "xyz".toList⟩]
          (DBWinReader.new false) [] := by
    unfold ProcessLines
    simp only [hclosed]
  have hnone : ∀ e ∈ (ProcessLines (fun _ => "proc".toList)
      ⟨⟨0, 0, fun _ => 0, fun _ => 0, 0⟩, fun _ => 1⟩
      [⟨1, 5, 1, some 42, "abc".toList⟩, ⟨2, 6, 2, none, "xyz".toList⟩]
      (DBWinReader.new false)).2.m_handleCache, e.sourceId ≠ 2 := by
    intro e he hid
    have := h.2.2.1 2 hnull e he hid
    cases this
  refine ⟨h.1, ?_, hnone, ?_⟩
  · have h2 := h.2.1 ⟨20, 20, fun _ => 20, fun _ => 5, 20⟩ 1 "abc".toList ⟨1, 42, 1⟩
    rw [hs] at h2 ⊢
    exact h2 (by show (15 : Rat) ≤ 20 - 0
                 norm_num)
      (by decide) (by decide) (List.mem_singleton.mpr rfl) rfl
      (by show (15 : Rat) < 20 - 1
          norm_num)
  · have h3 := h.2.2.2 ⟨20, 20, fun _ => 20, fun _ => 5, 20⟩ 2 hnone
    refine ⟨h3.1, ?_⟩
    rw [h3.2, hs]
    decide

/-- C15 fails as stated: after the batch of one fragment "abc" of source 1 with
a null handle, source 1 has "abc" pending and the handle cache is empty; every
later check returns no line and leaves "abc" pending. -/
theorem C15_counterexample :
    pendingOf (ProcessLines (fun _ => []) ⟨⟨0, 0, fun _ => 0, fun _ => 0, 0⟩, fun _ => 0⟩
      [⟨0, 0, 1, none, "abc".toList⟩] (DBWinReader.new false)).2 1 = "abc".toList ∧
    (ProcessLines (fun _ => []) ⟨⟨0, 0, fun _ => 0, fun _ => 0, 0⟩, fun _ => 0⟩
      [⟨0, 0, 1, none, "abc".toList⟩] (DBWinReader.new false)).2.m_handleCache = [] ∧
    (∀ r : CheckReads,
      (CheckHandleCache r (ProcessLines (fun _ => []) ⟨⟨0, 0, fun _ => 0, fun _ => 0, 0⟩, fun _ => 0⟩
        [⟨0, 0, 1, none, "abc".toList⟩] (DBWinReader.new false)).2).1 = [] ∧
      pendingOf (CheckHandleCache r (ProcessLines (fun _ => [])
        ⟨⟨0, 0, fun _ => 0, fun _ => 0, 0⟩, fun _ => 0⟩
        [⟨0, 0, 1, none, "abc".toList⟩] (DBWinReader.new false)).2).2 1 = "abc".toList) := by
  have hclosed : CheckHandleCache ⟨0, 0, fun _ => 0, fun _ => 0, 0⟩ (DBWinReader.new false)
      = ([], DBWinReader.new false) :=
    CheckHandleCache_closed _ _ (by
      show (0 : Rat) - 0 < HandleCacheTimeout
      norm_num [HandleCacheTimeout])
  have hs : ProcessLines (fun _ => []) ⟨⟨0, 0, fun _ => 0, fun _ => 0, 0⟩, fun _ => 0⟩
      [⟨0, 0, 1, none, "abc".toList⟩] (DBWinReader.new false)
      = ProcessLine ⟨0, 0, 1, [], "abc".toList⟩ (DBWinReader.new false) := by
    unfold ProcessLines
    simp only [hclosed]
    rfl
  rw [hs]
  refine ⟨by decide, rfl, fun r => ?_⟩
  obtain ⟨e1, e2⟩ := CheckHandleCache_empty_cache r
    (ProcessLine ⟨0, 0, 1, [], "abc".toList⟩ (DBWinReader.new false)).2 rfl
  refine ⟨e1, ?_⟩
  simp only [pendingOf, LineBuffers.find, e2]
  decide

/-- Without a NUL in the payload array of the record the copy of line 98 runs
past the record: the call has no defined outcome. -/
theorem Notify_without_NUL (OpenProcess : Pid → Option Handle) (now : Time)
    (systemTime : FileTime) (ch : Channel) (s : DBWinReader)
    (h : Char.ofNat 0 ∉ ch.m_dbWinBuffer.data) :
    Notify OpenProcess now systemTime ch s = none := by
  simp [Notify, Add, cString, h]

end DebugViewPP
